import Mathlib

/-!
Verification development for the DoMyJob email pipeline
(credential vault, mail transport adapter, response generation service,
email sync orchestrator, in-memory persistence gateway).

The definitions below are a shallow embedding of the TypeScript source:

* the credential vault (`encrypt` / `decrypt`) from the email service module,
  with the `aes-256-cbc` cipher of the crypto library modelled as
  CBC mode + PKCS#7 padding over an abstract keyed block permutation
  (`BlockCipher`), since the AES block primitive itself lives in the
  external crypto library, not in this repository;
* the in-memory persistence gateway (`MemStorage`) with its email,
  email-settings and email-response tables;
* the sync orchestrator (`syncEmails`), the per-message classification
  (`determineIfNeedsResponse`), draft generation (`generateEmailResponse`),
  the fetch filter of the mail transport adapter, and `sendEmail`.

External network effects (IMAP connection, message fetch, the language-model
completion calls, SMTP transport) are passed in as explicit outcome
parameters, so every function here is executable.
-/

namespace DoMyJob
/-! ### Bytes and hex encoding

Buffers are modelled as `List Nat` with each entry a byte (`< 256` where it
matters).  `hexChars` is `Buffer.prototype.toString('hex')` (lowercase);
`fromHexChars` is `Buffer.from(str, 'hex')`, which decodes two hex digits at
a time (upper or lower case) and truncates at the first invalid pair. -/

def hexDigitChar (n : Nat) : Char :=
  if n < 10 then Char.ofNat (48 + n) else Char.ofNat (87 + n)

def hexChars (bs : List Nat) : List Char :=
  bs.flatMap fun b => [hexDigitChar (b / 16), hexDigitChar (b % 16)]

def hexVal (c : Char) : Option Nat :=
  if 48 ≤ c.toNat ∧ c.toNat ≤ 57 then some (c.toNat - 48)
  else if 97 ≤ c.toNat ∧ c.toNat ≤ 102 then some (c.toNat - 87)
  else if 65 ≤ c.toNat ∧ c.toNat ≤ 70 then some (c.toNat - 55)
  else none

def fromHexChars : List Char → List Nat
  | c1 :: c2 :: rest =>
    match hexVal c1, hexVal c2 with
    | some h, some l => (16 * h + l) :: fromHexChars rest
    | _, _ => []
  | _ => []

/-! ### JS `String.prototype.split(':')` and array joining with `':'`

`decrypt` does `text.split(':')`, `shift()`s the IV segment, and re-joins the
rest with `':'`.  We model the split/join pair on `List Char`. -/

def jsSplitColon : List Char → List (List Char)
  | [] => [[]]
  | c :: rest =>
    if c = ':' then [] :: jsSplitColon rest
    else
      match jsSplitColon rest with
      | [] => [[c]]
      | p :: ps => (c :: p) :: ps

def jsJoinColon : List (List Char) → List Char
  | [] => []
  | [p] => p
  | p :: ps => p ++ ':' :: jsJoinColon ps

/-! ### UTF-8 encoding

`Buffer.from(string)` encodes the string as UTF-8.  We only ever need the
encoding direction. -/

def utf8Char (c : Char) : List Nat :=
  let n := c.toNat
  if n < 128 then [n]
  else if n < 2048 then [192 + n / 64, 128 + n % 64]
  else if n < 65536 then [224 + n / 4096, 128 + n / 64 % 64, 128 + n % 64]
  else [240 + n / 262144, 128 + n / 4096 % 64, 128 + n / 64 % 64, 128 + n % 64]

def utf8Str (s : String) : List Nat := s.data.flatMap utf8Char

/-! ### The `aes-256-cbc` cipher of the crypto library

`crypto.createCipheriv('aes-256-cbc', key, iv)` selects the AES-256 block
permutation, CBC chaining, and PKCS#7 padding, and validates that the IV is
16 bytes and the key 32 bytes (otherwise it throws; the relative order of the
two validations never matters below because each theorem constrains at most
one of them).  The AES block permutation itself lives in the crypto library,
outside this repository, so it is abstracted as a keyed `BlockCipher`;
CBC chaining and the padding checks — the parts the vault's observable
behaviour depends on — are modelled in full. -/

structure BlockCipher where
  enc : List Nat → List Nat → List Nat
  dec : List Nat → List Nat → List Nat

inductive CryptoError where
  | invalidIvLength
  | invalidKeyLength
  | wrongFinalBlockLength
  | badDecrypt
  deriving DecidableEq

def xorBytes (a b : List Nat) : List Nat := List.zipWith (· ^^^ ·) a b

def chunks16Aux : Nat → List Nat → List (List Nat)
  | 0, _ => []
  | _ + 1, [] => []
  | fuel + 1, b :: bs => ((b :: bs).take 16) :: chunks16Aux fuel ((b :: bs).drop 16)

/-- Split a byte list into 16-byte blocks (the last block may be short when
the length is not a multiple of 16; decrypt rejects that case upfront). -/
def chunks16 (l : List Nat) : List (List Nat) := chunks16Aux l.length l

def cbcEncBlocks (E : List Nat → List Nat) : List Nat → List (List Nat) → List (List Nat)
  | _, [] => []
  | prev, b :: bs =>
    let c := E (xorBytes b prev)
    c :: cbcEncBlocks E c bs

def cbcDecBlocks (D : List Nat → List Nat) : List Nat → List (List Nat) → List (List Nat)
  | _, [] => []
  | prev, c :: cs => xorBytes (D c) prev :: cbcDecBlocks D c cs

def pkcs7pad (bs : List Nat) : List Nat :=
  bs ++ List.replicate (16 - bs.length % 16) (16 - bs.length % 16)

def pkcs7unpad (bs : List Nat) : Option (List Nat) :=
  match bs.getLast? with
  | none => none
  | some n =>
    if 1 ≤ n ∧ n ≤ 16 ∧ n ≤ bs.length ∧ ((bs.drop (bs.length - n)).all fun x => x == n)
    then some (bs.take (bs.length - n))
    else none

def aesCbcEncrypt (B : BlockCipher) (key iv pt : List Nat) : Except CryptoError (List Nat) :=
  if iv.length ≠ 16 then .error .invalidIvLength
  else if key.length ≠ 32 then .error .invalidKeyLength
  else .ok (cbcEncBlocks (B.enc key) iv (chunks16 (pkcs7pad pt))).flatten

def aesCbcDecrypt (B : BlockCipher) (key iv ct : List Nat) : Except CryptoError (List Nat) :=
  if iv.length ≠ 16 then .error .invalidIvLength
  else if key.length ≠ 32 then .error .invalidKeyLength
  else if ct.length = 0 ∨ ct.length % 16 ≠ 0 then .error .wrongFinalBlockLength
  else
    match pkcs7unpad (cbcDecBlocks (B.dec key) iv (chunks16 ct)).flatten with
    | some pt => .ok pt
    | none => .error .badDecrypt

/-! ### Credential vault (`encrypt` / `decrypt`)

`ENCRYPTION_KEY = process.env.ENCRYPTION_KEY || 'default-...-only'`; the key
string is passed through `Buffer.from` (UTF-8).  `encrypt` prepends the fresh
random 16-byte IV (a parameter here, standing for `crypto.randomBytes(16)`)
as `iv_hex:cipher_hex`; `decrypt` splits on `':'`, shifts off the IV segment
and joins the remainder back with `':'`.  The plaintext is the UTF-8 byte
list of the credential string. -/

def defaultEncryptionKey : String := "default-encryption-key-for-development-only"

def encrypt (B : BlockCipher) (encryptionKey : String) (iv pt : List Nat) :
    Except CryptoError String :=
  (aesCbcEncrypt B (utf8Str encryptionKey) iv pt).map fun ct =>
    String.mk (hexChars iv ++ ':' :: hexChars ct)

def decrypt (B : BlockCipher) (encryptionKey : String) (blob : String) :
    Except CryptoError (List Nat) :=
  let parts := jsSplitColon blob.data
  aesCbcDecrypt B (utf8Str encryptionKey)
    (fromHexChars (parts.headD [])) (fromHexChars (jsJoinColon parts.tail))

/-! ### A concrete block cipher for witnesses and counterexamples

Stands in for the external AES-256 primitive when a theorem has to be
instantiated at concrete inputs: XOR of the block with the first 16 key
bytes.  It presents the same contract surface the crypto library guarantees
for the AES block permutation (a keyed 16-byte-block permutation producing
bytes). -/

def tinyCipher : BlockCipher where
  enc := fun key b => xorBytes b (key.take 16)
  dec := fun key b => xorBytes b (key.take 16)

/-! ### Data model (from `shared/schema.ts`)

Only the email-pipeline tables of `MemStorage` are modelled (`emailSettings`,
`emails`, `emailResponses` and their id counters); the other tables (users,
contexts, tasks, ...) are untouched by the claims.  A JS `Map` keyed by the
auto-incremented id is modelled as a list of rows in insertion order:
`Map.set` with a fresh key appends, with an existing key replaces in place,
and `Map.values()` iterates in that order.  Timestamps are epoch
milliseconds.  The `from` column is `fromAddr` (`from` is a Lean keyword). -/

structure EmailSettings where
  id : Nat
  userId : Nat
  emailProvider : String
  email : String
  credentials : String
  active : Bool
  lastSynced : Option Nat
  createdAt : Nat
  updatedAt : Nat
  deriving DecidableEq

structure Email where
  id : Nat
  userId : Nat
  messageId : String
  fromAddr : String
  toAddr : String
  cc : String
  subject : String
  body : String
  html : String
  date : Nat
  isRead : Bool
  needsResponse : Bool
  responseGenerated : Bool
  folderPath : String
  createdAt : Nat
  deriving DecidableEq

structure InsertEmail where
  userId : Nat
  messageId : String
  fromAddr : String
  toAddr : String
  cc : String
  subject : String
  body : String
  html : String
  date : Nat
  isRead : Bool
  needsResponse : Bool
  responseGenerated : Bool
  folderPath : String
  deriving DecidableEq

structure EmailResponse where
  id : Nat
  emailId : Nat
  userId : Nat
  draftResponse : String
  suggestedActions : List (String × String)
  status : String
  sentAt : Option Nat
  createdAt : Nat
  updatedAt : Nat
  deriving DecidableEq

structure InsertEmailResponse where
  emailId : Nat
  userId : Nat
  draftResponse : String
  suggestedActions : List (String × String)
  status : String
  deriving DecidableEq

structure MemStorage where
  emailSettings : List EmailSettings
  emails : List Email
  emailResponses : List EmailResponse
  emailSettingsId : Nat
  emailId : Nat
  emailResponseId : Nat
  deriving DecidableEq

/-! ### Persistence gateway operations (`MemStorage` methods) -/

def getEmailSettings (s : MemStorage) (userId : Nat) : Option EmailSettings :=
  s.emailSettings.find? fun st => st.userId == userId

/-- The method `updateEmailSettings`: find by user, merge the partial update (modelled as
`patch`), stamp `updatedAt`, and `Map.set` back under the same id. -/
def updateEmailSettings (s : MemStorage) (userId : Nat)
    (patch : EmailSettings → EmailSettings) (now : Nat) : MemStorage :=
  match getEmailSettings s userId with
  | none => s
  | some st =>
    { s with
        emailSettings := s.emailSettings.map
          (fun x => if x.id == st.id then { patch st with updatedAt := now } else x) }

def getEmail (s : MemStorage) (id : Nat) : Option Email :=
  s.emails.find? fun e => e.id == id

def getEmailByMessageId (s : MemStorage) (messageId : String) : Option Email :=
  s.emails.find? fun e => e.messageId == messageId

/-- The method `createEmail` inserts unconditionally: it spreads the insert row, assigns
the next id and `createdAt`, and stores it.  No uniqueness check happens
here. -/
def createEmail (s : MemStorage) (insertEmail : InsertEmail) (now : Nat) :
    Email × MemStorage :=
  let email : Email :=
    { id := s.emailId, userId := insertEmail.userId,
      messageId := insertEmail.messageId, fromAddr := insertEmail.fromAddr,
      toAddr := insertEmail.toAddr, cc := insertEmail.cc, subject := insertEmail.subject,
      body := insertEmail.body, html := insertEmail.html, date := insertEmail.date,
      isRead := insertEmail.isRead, needsResponse := insertEmail.needsResponse,
      responseGenerated := insertEmail.responseGenerated,
      folderPath := insertEmail.folderPath, createdAt := now }
  (email, { s with emails := s.emails ++ [email], emailId := s.emailId + 1 })

def updateEmail (s : MemStorage) (id : Nat) (patch : Email → Email) : MemStorage :=
  match getEmail s id with
  | none => s
  | some _ => { s with emails := s.emails.map (fun e => if e.id == id then patch e else e) }

def getEmailResponse (s : MemStorage) (id : Nat) : Option EmailResponse :=
  s.emailResponses.find? fun r => r.id == id

def createEmailResponse (s : MemStorage) (ins : InsertEmailResponse) (now : Nat) :
    EmailResponse × MemStorage :=
  let response : EmailResponse :=
    { id := s.emailResponseId, emailId := ins.emailId,
      userId := ins.userId, draftResponse := ins.draftResponse,
      suggestedActions := ins.suggestedActions, status := ins.status,
      sentAt := none, createdAt := now, updatedAt := now }
  (response,
    { s with emailResponses := s.emailResponses ++ [response],
             emailResponseId := s.emailResponseId + 1 })

def updateEmailResponse (s : MemStorage) (id : Nat) (patch : EmailResponse → EmailResponse)
    (now : Nat) : MemStorage :=
  match getEmailResponse s id with
  | none => s
  | some _ =>
    { s with
        emailResponses := s.emailResponses.map
          (fun r => if r.id == id then { patch r with updatedAt := now } else r) }

/-! ### Response generation service -/

/-- JS `opt || dflt` on an optional string: `undefined` and `''` are falsy. -/
def jsOrStr (opt : Option String) (dflt : String) : String :=
  match opt with
  | none => dflt
  | some s => if s = "" then dflt else s

structure ClassifyResult where
  needsResponse : Bool
  confidence : ℚ
  deriving DecidableEq

structure DraftResult where
  draftResponse : String
  suggestedActions : List (String × String)
  deriving DecidableEq

/-- Classification `determineIfNeedsResponse(emailBody, subject)`:  builds a prompt from the
subject and the (truncated) body and asks the completion endpoint for
`{needsResponse, confidence}`.  The `llm` parameter models the outcome of the
network call plus `JSON.parse` for a given body/subject pair; any failure in
that chain lands in the `catch` and yields `false`.  On success the decision
is `result.needsResponse && result.confidence > 0.7` (strict). -/
def determineIfNeedsResponse
    (llm : String → String → Except String ClassifyResult)
    (emailBody subject : String) : Bool :=
  match llm emailBody subject with
  | .error _ => false
  | .ok result => result.needsResponse && decide (mkRat 7 10 < result.confidence)

/-- Draft generation `generateEmailResponse(userId, emailId)`: loads the email (a missing email
throws, is caught, and returns `false` with no write), asks the model for a
draft (`draft` models that call; a failure is caught the same way), then
stores an `EmailResponse` with status `draft` and flips
`responseGenerated`. -/
def generateEmailResponse (draft : Nat → Option DraftResult) (userId emailId now : Nat)
    (s : MemStorage) : Bool × MemStorage :=
  match getEmail s emailId with
  | none => (false, s)
  | some email =>
    match draft emailId with
    | none => (false, s)
    | some result =>
      let s1 := (createEmailResponse s
        { emailId := email.id, userId := userId, draftResponse := result.draftResponse,
          suggestedActions := result.suggestedActions, status := "draft" } now).2
      let s2 := updateEmail s1 emailId fun e => { e with responseGenerated := true }
      (true, s2)

/-! ### Mail transport adapter: fetched records and the malformed-message filter -/

/-- A message record as fetched over IMAP, after MIME parsing succeeded for
the relevant bodies.  Optional fields keep their parser defaults. -/
structure EmailData where
  messageId : String
  fromAddr : String
  toAddr : String
  cc : Option String
  subject : Option String
  text : String
  html : Option String
  date : Nat
  isRead : Option Bool
  folder : Option String
  deriving DecidableEq

/-- The partial record a message accumulates while its header and text parts
are parsed; a field is `none` when its parser callback never delivered
(parse error), and may be `some ""` when the parsed value was empty. -/
structure PartialEmailData where
  messageId : Option String
  fromAddr : Option String
  toAddr : Option String
  cc : Option String
  subject : Option String
  text : Option String
  html : Option String
  date : Option Nat
  isRead : Bool
  folder : String
  deriving DecidableEq

/-- JS truthiness of `email.field` for an optional string field. -/
def truthyStr : Option String → Bool
  | none => false
  | some s => s != ""

/-- The end-of-message check in `fetchEmails`:
`if (email.messageId && email.from && email.to && email.text)`. -/
def keepMessage (e : PartialEmailData) : Bool :=
  truthyStr e.messageId && truthyStr e.fromAddr && truthyStr e.toAddr && truthyStr e.text

/-- The fetch `fetchEmails`, restricted to its per-message accumulation: of all parsed
partial records, exactly those passing `keepMessage` are pushed onto the
result list; the others are skipped without error. -/
def fetchEmails (parsedMessages : List PartialEmailData) : List PartialEmailData :=
  parsedMessages.filter keepMessage

/-! ### Email sync orchestrator -/

def insertEmailOfData (userId : Nat) (e : EmailData) (needsResponse : Bool) : InsertEmail :=
  { userId := userId, messageId := e.messageId, fromAddr := e.fromAddr, toAddr := e.toAddr,
    cc := jsOrStr e.cc "", subject := jsOrStr e.subject "", body := e.text,
    html := jsOrStr e.html "", date := e.date, isRead := e.isRead.getD false,
    needsResponse := needsResponse, responseGenerated := false,
    folderPath := jsOrStr e.folder "INBOX" }

/-- The store after the body of the sync loop handled one *new* message:
classify it (`determineIfNeedsResponse`), store the row, and — when the saved
row needs a response — immediately generate a draft for it. -/
def syncStepStore (llm : String → String → Except String ClassifyResult)
    (draft : Nat → Option DraftResult) (userId now : Nat) (e : EmailData)
    (s : MemStorage) : MemStorage :=
  let needs := determineIfNeedsResponse llm e.text (jsOrStr e.subject "")
  let saved := (createEmail s (insertEmailOfData userId e needs) now).1
  let s1 := (createEmail s (insertEmailOfData userId e needs) now).2
  if saved.needsResponse
  then (generateEmailResponse draft userId saved.id now s1).2
  else s1

/-- The per-message loop of `syncEmails`: check existence by messageId first;
only for new messages run the classify/insert/draft step (`syncStepStore`).
The returned `List String` logs the messageId of every message for which the
classification call was made (instrumentation for the no-duplicate-LLM-call
property; it does not influence the store). -/
def processFetched (llm : String → String → Except String ClassifyResult)
    (draft : Nat → Option DraftResult) (userId now : Nat) :
    MemStorage → List EmailData → MemStorage × Nat × List String
  | s, [] => (s, 0, [])
  | s, e :: rest =>
    match getEmailByMessageId s e.messageId with
    | some _ => processFetched llm draft userId now s rest
    | none =>
      let rec3 := processFetched llm draft userId now (syncStepStore llm draft userId now e s) rest
      (rec3.1, rec3.2.1 + 1, e.messageId :: rec3.2.2)

structure SyncResult where
  success : Bool
  count : Nat
  error : Option String
  deriving DecidableEq

def threeDaysMs : Nat := 3 * 24 * 60 * 60 * 1000

/-- Watermark for a sync pass: `lastSynced` or now minus 3 days. -/
def syncWatermark (st : EmailSettings) (now : Nat) : Nat :=
  st.lastSynced.getD (now - threeDaysMs)

/-- The orchestrator `syncEmails(userId)`.  `conn` models the IMAP connection outcome
(credential decryption + handshake), `fetch` the search/fetch/parse of
messages since the given watermark; either failure is caught and reported
with no further writes.  On the success path every fetched message is
processed and `lastSynced` advances to now. -/
def syncEmails (userId now : Nat) (conn : Except String Unit)
    (fetch : Nat → Except String (List EmailData))
    (llm : String → String → Except String ClassifyResult)
    (draft : Nat → Option DraftResult)
    (s : MemStorage) : SyncResult × MemStorage × List String :=
  match getEmailSettings s userId with
  | none => ({ success := false, count := 0, error := some "Email settings not found" }, s, [])
  | some st =>
    if st.active = false then
      ({ success := false, count := 0, error := some "Email integration is not active" }, s, [])
    else
      match conn with
      | .error e => ({ success := false, count := 0, error := some e }, s, [])
      | .ok _ =>
        match fetch (syncWatermark st now) with
        | .error e => ({ success := false, count := 0, error := some e }, s, [])
        | .ok fetchedEmails =>
          let r := processFetched llm draft userId now s fetchedEmails
          let s2 := updateEmailSettings r.1 userId (fun x => { x with lastSynced := some now }) now
          ({ success := true, count := r.2.1, error := none }, s2, r.2.2)

/-! ### Sending a response (`sendEmail`) -/

structure SentMessage where
  fromAddr : String
  toAddr : String
  subject : String
  text : String
  references : String
  inReplyTo : String
  deriving DecidableEq

structure SendResult where
  success : Bool
  error : Option String
  deriving DecidableEq

/-- JS `String.prototype.startsWith` on character lists. -/
def jsStartsWith : List Char → List Char → Bool
  | _, [] => true
  | [], _ :: _ => false
  | c :: cs, p :: ps => c == p && jsStartsWith cs ps

/-- Reply subject:
`email.subject?.startsWith('Re:') ? email.subject : "Re: " + (email.subject || '(No subject)')`. -/
def replySubject (subject : String) : String :=
  if jsStartsWith subject.data "Re:".data
  then subject
  else "Re: " ++ (if subject = "" then "(No subject)" else subject)

/-- First match capture of `/<([^>]+)>/`: the leftmost `<` that is followed,
after at least one character, by a `>` yields the characters between. -/
def firstBracketCapture : List Char → Option String
  | [] => none
  | c :: rest =>
    if c = '<' then
      let inner := rest.takeWhile fun d => d != '>'
      if inner.length ≠ 0 ∧ inner.length < rest.length
      then some (String.mk inner)
      else firstBracketCapture rest
    else firstBracketCapture rest

/-- JS `\s` for the ASCII range (the unicode space classes do not occur in
mail headers handled here). -/
def jsWhitespace (c : Char) : Bool :=
  c == ' ' || c == '\t' || c == '\n' || c == '\r' || c == '\x0b' || c == '\x0c'

/-- Match capture of `/([^<\s]+)$/`: the maximal nonempty trailing run of
characters that are neither `<` nor whitespace. -/
def trailingTokenCapture (s : List Char) : Option String :=
  let tok := (s.reverse.takeWhile fun c => !(c == '<' || jsWhitespace c)).reverse
  if tok.isEmpty then none else some (String.mk tok)

/-- Source: `const replyToEmail = email.from.match(/<([^>]+)>/) || email.from.match(/([^<\s]+)$/);`
`const replyTo = replyToEmail ? replyToEmail[1] : email.from;` -/
def extractReplyTo (fromField : String) : String :=
  match firstBracketCapture fromField.data with
  | some inner => inner
  | none =>
    match trailingTokenCapture fromField.data with
    | some tok => tok
    | none => fromField

/-- The outgoing reply message assembled by `sendEmail`: recipient extracted
from the original From header, subject `Re:`-prefixed, `references` and
`inReplyTo` pointing at the original message-id, and
`text = editedResponse || draftResponse`. -/
def buildReply (emailSettings : EmailSettings) (email : Email)
    (emailResponse : EmailResponse) (editedResponse : Option String) : SentMessage :=
  { fromAddr := emailSettings.email,
    toAddr := extractReplyTo email.fromAddr,
    subject := replySubject email.subject,
    text := jsOrStr editedResponse emailResponse.draftResponse,
    references := email.messageId, inReplyTo := email.messageId }

/-- Sending `sendEmail(userId, responseId, editedResponse?)`.  `credentialsOk` models
credential decryption + JSON parse, `transport` the SMTP `sendMail` call; any
failure before the final update is caught and reported with no state change.
On success the response row gets status `sent`, `sentAt`, and
`draftResponse := editedResponse || draftResponse` (the sent message
content). -/
def sendEmail (userId responseId : Nat) (editedResponse : Option String) (now : Nat)
    (credentialsOk : Except String Unit)
    (transport : SentMessage → Except String Unit)
    (s : MemStorage) : SendResult × MemStorage × Option SentMessage :=
  match getEmailResponse s responseId with
  | none => ({ success := false, error := some "Email response not found" }, s, none)
  | some emailResponse =>
    match getEmail s emailResponse.emailId with
    | none => ({ success := false, error := some "Original email not found" }, s, none)
    | some email =>
      match getEmailSettings s userId with
      | none => ({ success := false, error := some "Email settings not found" }, s, none)
      | some emailSettings =>
        match credentialsOk with
        | .error e => ({ success := false, error := some e }, s, none)
        | .ok _ =>
          match transport (buildReply emailSettings email emailResponse editedResponse) with
          | .error e => ({ success := false, error := some e }, s, none)
          | .ok _ =>
            ({ success := true, error := none },
             updateEmailResponse s responseId
               (fun r =>
                 { r with
                     status := "sent", sentAt := some now,
                     draftResponse := jsOrStr editedResponse emailResponse.draftResponse }) now,
             some (buildReply emailSettings email emailResponse editedResponse))

/-! ### Demo fixtures for witnesses and counterexamples -/

def demoSettings : EmailSettings :=
  { id := 1, userId := 1, emailProvider := "imap", email := "user@example.com",
    credentials := "aa:bb", active := true, lastSynced := none, createdAt := 0, updatedAt := 0 }

def demoEmail : Email :=
  { id := 1, userId := 1, messageId := "m1", fromAddr := "Alice Smith <alice@example.com>",
    toAddr := "user@example.com", cc := "", subject := "Hi", body := "hello", html := "",
    date := 500, isRead := false, needsResponse := true, responseGenerated := false,
    folderPath := "INBOX", createdAt := 0 }

def demoResponse : EmailResponse :=
  { id := 1, emailId := 1, userId := 1, draftResponse := "Hello Alice", suggestedActions := [],
    status := "draft", sentAt := none, createdAt := 0, updatedAt := 0 }

/-- A store holding only active email settings for user 1. -/
def demoStore : MemStorage :=
  { emailSettings := [demoSettings], emails := [], emailResponses := [],
    emailSettingsId := 2, emailId := 1, emailResponseId := 1 }

/-- A store ready for `sendEmail`: settings, one email, one draft response. -/
def demoStoreSend : MemStorage :=
  { emailSettings := [demoSettings], emails := [demoEmail], emailResponses := [demoResponse],
    emailSettingsId := 2, emailId := 2, emailResponseId := 2 }

/-- Like `demoStoreSend` but the original email has an empty subject. -/
def demoStoreEmptySubject : MemStorage :=
  { demoStoreSend with emails := [{ demoEmail with subject := "" }] }

def demoMsg : EmailData :=
  { messageId := "m2", fromAddr := "Bob <bob@example.com>", toAddr := "user@example.com",
    cc := none, subject := some "Q", text := "a question", html := none, date := 100,
    isRead := none, folder := none }

def demoInsert : InsertEmail :=
  { userId := 1, messageId := "m1", fromAddr := "Bob <bob@example.com>",
    toAddr := "user@example.com", cc := "", subject := "Q", body := "a question", html := "",
    date := 100, isRead := false, needsResponse := false, responseGenerated := false,
    folderPath := "INBOX" }
lemma hexVal_hexDigitChar {n : Nat} (h : n < 16) : hexVal (hexDigitChar n) = some n := by
  have : ∀ m < 16, hexVal (hexDigitChar m) = some m := by decide
  exact this n h

lemma hexDigitChar_ne_colon {n : Nat} (h : n < 16) : hexDigitChar n ≠ ':' := by
  have : ∀ m < 16, hexDigitChar m ≠ ':' := by decide
  exact this n h

lemma fromHexChars_hexChars : ∀ bs : List Nat, (∀ b ∈ bs, b < 256) →
    fromHexChars (hexChars bs) = bs := by
  intro bs
  induction bs with
  | nil => intro _; rfl
  | cons b bs ih =>
    intro h
    have hb : b < 256 := h b (List.mem_cons_self _ _)
    have hdiv : b / 16 < 16 := by omega
    have hmod : b % 16 < 16 := by omega
    have hstep : hexChars (b :: bs)
        = hexDigitChar (b / 16) :: hexDigitChar (b % 16) :: hexChars bs := by
      simp [hexChars, List.flatMap_cons]
    rw [hstep]
    simp only [fromHexChars, hexVal_hexDigitChar hdiv, hexVal_hexDigitChar hmod]
    have hb16 : 16 * (b / 16) + b % 16 = b := by omega
    rw [hb16, ih fun x hx => h x (List.mem_cons_of_mem _ hx)]

lemma mem_hexChars_ne_colon {bs : List Nat} (h : ∀ b ∈ bs, b < 256) :
    ∀ c ∈ hexChars bs, c ≠ ':' := by
  intro c hc
  simp only [hexChars, List.mem_flatMap] at hc
  obtain ⟨b, hb, hcb⟩ := hc
  have hblt := h b hb
  have hdiv : b / 16 < 16 := by omega
  have hmod : b % 16 < 16 := by omega
  simp only [List.mem_cons, List.not_mem_nil, or_false] at hcb
  rcases hcb with rfl | rfl
  · exact hexDigitChar_ne_colon hdiv
  · exact hexDigitChar_ne_colon hmod

lemma jsSplitColon_ne_nil : ∀ l : List Char, jsSplitColon l ≠ [] := by
  intro l
  induction l with
  | nil => simp [jsSplitColon]
  | cons c rest ih =>
    simp only [jsSplitColon]
    split
    · simp
    · cases h : jsSplitColon rest with
      | nil => simp
      | cons p ps => simp

lemma jsJoinColon_jsSplitColon : ∀ l : List Char, jsJoinColon (jsSplitColon l) = l := by
  intro l
  induction l with
  | nil => rfl
  | cons c rest ih =>
    simp only [jsSplitColon]
    split
    · rename_i hc
      subst hc
      cases h : jsSplitColon rest with
      | nil => exact absurd h (jsSplitColon_ne_nil rest)
      | cons p ps =>
        rw [h] at ih
        cases ps with
        | nil => simpa [jsJoinColon] using ih
        | cons q qs => simpa [jsJoinColon] using ih
    · cases h : jsSplitColon rest with
      | nil => exact absurd h (jsSplitColon_ne_nil rest)
      | cons p ps =>
        rw [h] at ih
        cases ps with
        | nil => simpa [jsJoinColon] using ih
        | cons q qs => simpa [jsJoinColon] using ih

/-- Splitting `a ++ ':' ++ b` where `a` is colon-free yields `a` as the head
and the split of `b` as the tail. -/
lemma jsSplitColon_append {a : List Char} (b : List Char)
    (ha : ∀ c ∈ a, c ≠ ':') :
    jsSplitColon (a ++ ':' :: b) = a :: jsSplitColon b := by
  induction a with
  | nil => simp [jsSplitColon]
  | cons c a ih =>
    have hc : c ≠ ':' := ha c (List.mem_cons_self _ _)
    have ih' := ih fun x hx => ha x (List.mem_cons_of_mem _ hx)
    simp only [List.cons_append, jsSplitColon, if_neg hc, List.append_eq]
    rw [ih']

lemma char_toNat_lt (c : Char) : c.toNat < 1114112 := by
  have h := c.valid
  rcases h with h | ⟨_, h⟩
  · exact Nat.lt_trans h (by decide)
  · exact h

lemma utf8Char_lt {c : Char} : ∀ x ∈ utf8Char c, x < 256 := by
  intro x hx
  have hc := char_toNat_lt c
  simp only [utf8Char] at hx
  split at hx
  · simp only [List.mem_cons, List.not_mem_nil, or_false] at hx
    omega
  · split at hx
    · simp only [List.mem_cons, List.not_mem_nil, or_false] at hx
      rcases hx with rfl | rfl <;> omega
    · split at hx
      · simp only [List.mem_cons, List.not_mem_nil, or_false] at hx
        rcases hx with rfl | rfl | rfl <;> omega
      · simp only [List.mem_cons, List.not_mem_nil, or_false] at hx
        rcases hx with rfl | rfl | rfl | rfl <;> omega

lemma utf8Str_lt (s : String) : ∀ x ∈ utf8Str s, x < 256 := by
  intro x hx
  simp only [utf8Str, List.mem_flatMap] at hx
  obtain ⟨c, _, hc⟩ := hx
  exact utf8Char_lt x hc

/-! ### Facts about padding, chunking and CBC chaining -/

lemma pkcs7pad_length (bs : List Nat) :
    (pkcs7pad bs).length = bs.length + (16 - bs.length % 16) := by
  simp [pkcs7pad]

lemma pkcs7unpad_pkcs7pad (bs : List Nat) : pkcs7unpad (pkcs7pad bs) = some bs := by
  have hn1 : 1 ≤ 16 - bs.length % 16 := by omega
  have hlen := pkcs7pad_length bs
  have hlast : (pkcs7pad bs).getLast? = some (16 - bs.length % 16) := by
    unfold pkcs7pad
    cases hn : 16 - bs.length % 16 with
    | zero => omega
    | succ m =>
      rw [List.replicate_succ', ← List.append_assoc,
        List.getLast?_append_of_ne_nil _ (by simp), List.getLast?_singleton]
  have hsub : (pkcs7pad bs).length - (16 - bs.length % 16) = bs.length := by omega
  simp only [pkcs7unpad, hlast]
  split
  · rw [hsub]
    unfold pkcs7pad
    rw [List.take_left' rfl]
  · rename_i hcond
    exfalso
    apply hcond
    refine ⟨hn1, by omega, by omega, ?_⟩
    rw [hsub]
    unfold pkcs7pad
    rw [List.drop_left' rfl]
    simp [List.all_eq_true, List.mem_replicate]

lemma chunks16Aux_flatten : ∀ (fuel : Nat) (l : List Nat), l.length ≤ fuel →
    (chunks16Aux fuel l).flatten = l := by
  intro fuel
  induction fuel with
  | zero =>
    intro l hl
    have : l = [] := List.length_eq_zero.mp (by omega)
    subst this; rfl
  | succ fuel ih =>
    intro l hl
    cases l with
    | nil => rfl
    | cons b bs =>
      simp only [chunks16Aux, List.flatten_cons]
      rw [ih _ (by simp_all; omega), List.take_append_drop]

lemma chunks16_flatten (l : List Nat) : (chunks16 l).flatten = l :=
  chunks16Aux_flatten l.length l le_rfl

lemma chunks16Aux_congr : ∀ (f1 f2 : Nat) (l : List Nat),
    l.length ≤ f1 → l.length ≤ f2 → chunks16Aux f1 l = chunks16Aux f2 l := by
  intro f1
  induction f1 with
  | zero =>
    intro f2 l h1 _
    have : l = [] := List.length_eq_zero.mp (by omega)
    subst this
    cases f2 <;> rfl
  | succ f1 ih =>
    intro f2 l h1 h2
    cases l with
    | nil => cases f2 <;> rfl
    | cons b bs =>
      cases f2 with
      | zero => simp at h2
      | succ f2 =>
        simp only [chunks16Aux]
        rw [ih f2 _ (by simp_all; omega) (by simp_all; omega)]

lemma chunks16_append {b : List Nat} (l : List Nat) (hb : b.length = 16) :
    chunks16 (b ++ l) = b :: chunks16 l := by
  unfold chunks16
  have hlen : (b ++ l).length = l.length + 16 := by simp [hb]; omega
  rw [hlen]
  cases hx : b ++ l with
  | nil =>
    have := congrArg List.length hx
    simp [hb] at this
  | cons x xs =>
    have h16 : l.length + 16 = (l.length + 15) + 1 := by omega
    rw [h16]
    rw [show chunks16Aux (l.length + 15 + 1) (x :: xs)
        = (x :: xs).take 16 :: chunks16Aux (l.length + 15) ((x :: xs).drop 16) from rfl]
    rw [← hx, List.take_left' hb, List.drop_left' hb]
    exact congrArg (b :: ·) (chunks16Aux_congr (l.length + 15) l.length l (by omega) le_rfl)

lemma chunks16_blocks : ∀ blocks : List (List Nat), (∀ b ∈ blocks, b.length = 16) →
    chunks16 blocks.flatten = blocks := by
  intro blocks
  induction blocks with
  | nil => intro _; rfl
  | cons b bs ih =>
    intro h
    rw [List.flatten_cons, chunks16_append _ (h b (List.mem_cons_self _ _)),
      ih fun x hx => h x (List.mem_cons_of_mem _ hx)]

lemma chunks16Aux_length_mem : ∀ (fuel : Nat) (l : List Nat), l.length ≤ fuel →
    l.length % 16 = 0 → ∀ b ∈ chunks16Aux fuel l, b.length = 16 := by
  intro fuel
  induction fuel with
  | zero =>
    intro l hl _ b hb
    have : l = [] := List.length_eq_zero.mp (by omega)
    subst this
    simp [chunks16Aux] at hb
  | succ fuel ih =>
    intro l hl hdvd b hb
    cases l with
    | nil => simp [chunks16Aux] at hb
    | cons x xs =>
      have hlen : (x :: xs).length = xs.length + 1 := rfl
      rw [hlen] at hl hdvd
      have hge : 16 ≤ xs.length + 1 := by omega
      simp only [chunks16Aux, List.mem_cons] at hb
      rcases hb with rfl | hb
      · rw [List.length_take, hlen]
        omega
      · refine ih _ ?_ ?_ b hb
        · rw [List.length_drop, hlen]; omega
        · rw [List.length_drop, hlen]; omega

lemma chunks16_length_mem (l : List Nat) (hdvd : l.length % 16 = 0) :
    ∀ b ∈ chunks16 l, b.length = 16 :=
  chunks16Aux_length_mem l.length l le_rfl hdvd

lemma xorBytes_length (a b : List Nat) : (xorBytes a b).length = min a.length b.length :=
  List.length_zipWith _ _ _

lemma xorBytes_cancel : ∀ a b : List Nat, a.length ≤ b.length →
    xorBytes (xorBytes a b) b = a := by
  intro a
  induction a with
  | nil => intro b _; cases b <;> rfl
  | cons x xs ih =>
    intro b hb
    cases b with
    | nil => simp at hb
    | cons y ys =>
      simp only [xorBytes, List.zipWith_cons_cons] at *
      rw [Nat.xor_cancel_right, ih ys (by simpa using hb)]

lemma cbcEncBlocks_length_mem (E : List Nat → List Nat)
    (hE : ∀ b, b.length = 16 → (E b).length = 16) :
    ∀ (blocks : List (List Nat)) (prev : List Nat), (∀ b ∈ blocks, b.length = 16) →
      prev.length = 16 → ∀ c ∈ cbcEncBlocks E prev blocks, c.length = 16 := by
  intro blocks
  induction blocks with
  | nil => intro prev _ _ c hc; simp [cbcEncBlocks] at hc
  | cons b bs ih =>
    intro prev hall hprev c hc
    have hb : b.length = 16 := hall b (List.mem_cons_self _ _)
    have hxor : (xorBytes b prev).length = 16 := by
      rw [xorBytes_length, hb, hprev]; rfl
    simp only [cbcEncBlocks, List.mem_cons] at hc
    rcases hc with rfl | hc
    · exact hE _ hxor
    · exact ih (E (xorBytes b prev)) (fun x hx => hall x (List.mem_cons_of_mem _ hx))
        (hE _ hxor) c hc

lemma cbcEncBlocks_numBlocks (E : List Nat → List Nat) :
    ∀ (blocks : List (List Nat)) (prev : List Nat),
      (cbcEncBlocks E prev blocks).length = blocks.length := by
  intro blocks
  induction blocks with
  | nil => intro prev; rfl
  | cons b bs ih => intro prev; simp [cbcEncBlocks, ih]

lemma cbcDecBlocks_cbcEncBlocks (E D : List Nat → List Nat)
    (hinv : ∀ b, b.length = 16 → D (E b) = b)
    (hE : ∀ b, b.length = 16 → (E b).length = 16) :
    ∀ (blocks : List (List Nat)) (prev : List Nat), (∀ b ∈ blocks, b.length = 16) →
      prev.length = 16 →
      cbcDecBlocks D prev (cbcEncBlocks E prev blocks) = blocks := by
  intro blocks
  induction blocks with
  | nil => intro prev _ _; rfl
  | cons b bs ih =>
    intro prev hall hprev
    have hb : b.length = 16 := hall b (List.mem_cons_self _ _)
    have hxor : (xorBytes b prev).length = 16 := by
      rw [xorBytes_length, hb, hprev]; rfl
    simp only [cbcEncBlocks, cbcDecBlocks]
    rw [hinv _ hxor, xorBytes_cancel b prev (by omega),
      ih (E (xorBytes b prev)) (fun x hx => hall x (List.mem_cons_of_mem _ hx)) (hE _ hxor)]

lemma flatten16_length : ∀ blocks : List (List Nat), (∀ b ∈ blocks, b.length = 16) →
    blocks.flatten.length = 16 * blocks.length := by
  intro blocks
  induction blocks with
  | nil => intro _; rfl
  | cons b bs ih =>
    intro h
    simp only [List.flatten_cons, List.length_append, List.length_cons,
      h b (List.mem_cons_self _ _), ih fun x hx => h x (List.mem_cons_of_mem _ hx)]
    ring

lemma xor_lt_256 {x y : Nat} (hx : x < 256) (hy : y < 256) : x ^^^ y < 256 := by
  have h := @Nat.bitwise_lt bne x y 8 (by simpa using hx) (by simpa using hy)
  simpa [HXor.hXor, Xor.xor, Nat.xor] using h

lemma xorBytes_bytes : ∀ a b : List Nat, (∀ x ∈ a, x < 256) → (∀ x ∈ b, x < 256) →
    ∀ x ∈ xorBytes a b, x < 256 := by
  intro a
  induction a with
  | nil => intro b _ _ x hx; cases hx
  | cons y ys ih =>
    intro b ha hb x hx
    cases b with
    | nil => cases hx
    | cons z zs =>
      simp only [xorBytes, List.zipWith_cons_cons, List.mem_cons] at hx
      rcases hx with rfl | hx
      · exact xor_lt_256 (ha y (List.mem_cons_self _ _)) (hb z (List.mem_cons_self _ _))
      · exact ih zs (fun u hu => ha u (List.mem_cons_of_mem _ hu))
          (fun u hu => hb u (List.mem_cons_of_mem _ hu)) x hx

lemma pkcs7pad_bytes {pt : List Nat} (h : ∀ x ∈ pt, x < 256) :
    ∀ x ∈ pkcs7pad pt, x < 256 := by
  intro x hx
  unfold pkcs7pad at hx
  rcases List.mem_append.mp hx with hx | hx
  · exact h x hx
  · have := List.eq_of_mem_replicate hx
    omega

lemma chunks16Aux_subset : ∀ (fuel : Nat) (l b : List Nat), b ∈ chunks16Aux fuel l →
    ∀ x ∈ b, x ∈ l := by
  intro fuel
  induction fuel with
  | zero => intro _ _ hb; cases hb
  | succ fuel ih =>
    intro l b hb x hx
    cases l with
    | nil => cases hb
    | cons y ys =>
      simp only [chunks16Aux, List.mem_cons] at hb
      rcases hb with rfl | hb
      · exact List.take_subset _ _ hx
      · exact List.drop_subset _ _ (ih _ b hb x hx)

lemma chunks16_bytes {l : List Nat} (h : ∀ x ∈ l, x < 256) :
    ∀ b ∈ chunks16 l, ∀ x ∈ b, x < 256 :=
  fun _b hb x hx => h x (chunks16Aux_subset _ _ _ hb x hx)

lemma flatten16_bytes (E : List Nat → List Nat)
    (hbyte : ∀ b, b.length = 16 → (∀ y ∈ b, y < 256) → ∀ x ∈ E b, x < 256)
    (hE : ∀ b, b.length = 16 → (E b).length = 16) :
    ∀ (blocks : List (List Nat)) (prev : List Nat), (∀ b ∈ blocks, b.length = 16) →
      (∀ b ∈ blocks, ∀ y ∈ b, y < 256) →
      prev.length = 16 → (∀ y ∈ prev, y < 256) →
      ∀ x ∈ (cbcEncBlocks E prev blocks).flatten, x < 256 := by
  intro blocks
  induction blocks with
  | nil => intro prev _ _ _ _ x hx; cases hx
  | cons b bs ih =>
    intro prev hall hbytes hprev hprevb x hx
    have hb : b.length = 16 := hall b (List.mem_cons_self _ _)
    have hxor : (xorBytes b prev).length = 16 := by
      rw [xorBytes_length, hb, hprev]; rfl
    have hxorb : ∀ y ∈ xorBytes b prev, y < 256 :=
      xorBytes_bytes b prev (hbytes b (List.mem_cons_self _ _)) hprevb
    simp only [cbcEncBlocks, List.flatten_cons, List.mem_append] at hx
    rcases hx with hx | hx
    · exact hbyte _ hxor hxorb x hx
    · exact ih (E (xorBytes b prev)) (fun y hy => hall y (List.mem_cons_of_mem _ hy))
        (fun y hy => hbytes y (List.mem_cons_of_mem _ hy)) (hE _ hxor)
        (hbyte _ hxor hxorb) x hx

/-! ### Success anatomy of `aesCbcEncrypt` and the decryption round trip -/

lemma aesCbcEncrypt_ok {B : BlockCipher} {key iv pt ct : List Nat}
    (h : aesCbcEncrypt B key iv pt = .ok ct) :
    iv.length = 16 ∧ key.length = 32 ∧
      ct = (cbcEncBlocks (B.enc key) iv (chunks16 (pkcs7pad pt))).flatten := by
  unfold aesCbcEncrypt at h
  split at h
  · cases h
  · split at h
    · cases h
    · rename_i hiv hkey
      refine ⟨by omega, by omega, ?_⟩
      cases h
      rfl

lemma aesCbc_encrypt_decrypt {B : BlockCipher} {key iv pt ct : List Nat}
    (hinv : ∀ b, b.length = 16 → B.dec key (B.enc key b) = b)
    (hE : ∀ b, b.length = 16 → (B.enc key b).length = 16)
    (henc : aesCbcEncrypt B key iv pt = .ok ct) :
    aesCbcDecrypt B key iv ct = .ok pt := by
  obtain ⟨hiv, hkey, hct⟩ := aesCbcEncrypt_ok henc
  have hpadmod : (pkcs7pad pt).length % 16 = 0 := by rw [pkcs7pad_length]; omega
  have hpadpos : 0 < (pkcs7pad pt).length := by rw [pkcs7pad_length]; omega
  have hblocks := chunks16_length_mem (pkcs7pad pt) hpadmod
  have hencall : ∀ c ∈ cbcEncBlocks (B.enc key) iv (chunks16 (pkcs7pad pt)), c.length = 16 :=
    cbcEncBlocks_length_mem _ hE _ _ hblocks hiv
  have hnum : 0 < (chunks16 (pkcs7pad pt)).length := by
    by_contra h0
    have hch : chunks16 (pkcs7pad pt) = [] := List.length_eq_zero.mp (by omega)
    have hfl := chunks16_flatten (pkcs7pad pt)
    rw [hch] at hfl
    have : (pkcs7pad pt).length = 0 := by rw [← hfl]; rfl
    omega
  have hctlen : ct.length = 16 * (chunks16 (pkcs7pad pt)).length := by
    rw [hct, flatten16_length _ hencall, cbcEncBlocks_numBlocks]
  have h3 : ¬(ct.length = 0 ∨ ct.length % 16 ≠ 0) := by
    push_neg
    constructor
    · rw [hctlen]; omega
    · rw [hctlen]; omega
  unfold aesCbcDecrypt
  rw [if_neg (show ¬iv.length ≠ 16 by omega), if_neg (show ¬key.length ≠ 32 by omega),
    if_neg h3, hct, chunks16_blocks _ hencall,
    cbcDecBlocks_cbcEncBlocks _ _ hinv hE _ _ hblocks hiv,
    chunks16_flatten, pkcs7unpad_pkcs7pad]

/-- Decrypting with a different (still 16-byte) IV succeeds whenever the
padded plaintext spans at least two blocks: only the first plaintext block is
XOR-garbled, and the padding check (which looks at the last block only) still
passes. -/
lemma aesCbc_decrypt_wrongIv {B : BlockCipher} {key iv iv' pt ct : List Nat}
    (hinv : ∀ b, b.length = 16 → B.dec key (B.enc key b) = b)
    (hE : ∀ b, b.length = 16 → (B.enc key b).length = 16)
    (hiv' : iv'.length = 16)
    (hlong : 16 ≤ pt.length)
    (henc : aesCbcEncrypt B key iv pt = .ok ct) :
    aesCbcDecrypt B key iv' ct
      = .ok (xorBytes (xorBytes (pt.take 16) iv) iv' ++ pt.drop 16) := by
  obtain ⟨hiv, hkey, hct⟩ := aesCbcEncrypt_ok henc
  have hpadmod : (pkcs7pad pt).length % 16 = 0 := by rw [pkcs7pad_length]; omega
  have hpadpos : 0 < (pkcs7pad pt).length := by rw [pkcs7pad_length]; omega
  have hblocks := chunks16_length_mem (pkcs7pad pt) hpadmod
  have hencall : ∀ c ∈ cbcEncBlocks (B.enc key) iv (chunks16 (pkcs7pad pt)), c.length = 16 :=
    cbcEncBlocks_length_mem _ hE _ _ hblocks hiv
  have hnum : 0 < (chunks16 (pkcs7pad pt)).length := by
    by_contra h0
    have hch : chunks16 (pkcs7pad pt) = [] := List.length_eq_zero.mp (by omega)
    have hfl := chunks16_flatten (pkcs7pad pt)
    rw [hch] at hfl
    have : (pkcs7pad pt).length = 0 := by rw [← hfl]; rfl
    omega
  have hctlen : ct.length = 16 * (chunks16 (pkcs7pad pt)).length := by
    rw [hct, flatten16_length _ hencall, cbcEncBlocks_numBlocks]
  have h3 : ¬(ct.length = 0 ∨ ct.length % 16 ≠ 0) := by
    push_neg
    exact ⟨by rw [hctlen]; omega, by rw [hctlen]; omega⟩
  -- split the padded plaintext at the first block
  have hP1len : (pt.take 16).length = 16 := by rw [List.length_take]; omega
  have hsplit : pkcs7pad pt
      = pt.take 16 ++ (pt.drop 16 ++ List.replicate (16 - pt.length % 16) (16 - pt.length % 16)) := by
    unfold pkcs7pad
    rw [← List.append_assoc, List.take_append_drop]
  have hchunks : chunks16 (pkcs7pad pt)
      = pt.take 16 :: chunks16 (pt.drop 16 ++ List.replicate (16 - pt.length % 16) (16 - pt.length % 16)) := by
    rw [hsplit]
    exact chunks16_append _ hP1len
  have hxorlen : (xorBytes (pt.take 16) iv).length = 16 := by
    rw [xorBytes_length, hP1len, hiv]; rfl
  have hC1len : (B.enc key (xorBytes (pt.take 16) iv)).length = 16 := hE _ hxorlen
  have htailblocks : ∀ b ∈ chunks16 (pt.drop 16 ++ List.replicate (16 - pt.length % 16) (16 - pt.length % 16)),
      b.length = 16 := by
    intro b hb
    exact hblocks b (by rw [hchunks]; exact List.mem_cons_of_mem _ hb)
  -- the swapped-prefix list is itself a correctly padded plaintext
  have hswaplen : (xorBytes (xorBytes (pt.take 16) iv) iv' ++ pt.drop 16).length = pt.length := by
    rw [List.length_append, xorBytes_length, hxorlen, hiv', List.length_drop]
    omega
  have hswap : xorBytes (xorBytes (pt.take 16) iv) iv'
        ++ (pt.drop 16 ++ List.replicate (16 - pt.length % 16) (16 - pt.length % 16))
      = pkcs7pad (xorBytes (xorBytes (pt.take 16) iv) iv' ++ pt.drop 16) := by
    unfold pkcs7pad
    rw [hswaplen, List.append_assoc]
  unfold aesCbcDecrypt
  rw [if_neg (show ¬iv'.length ≠ 16 by omega), if_neg (show ¬key.length ≠ 32 by omega),
    if_neg h3, hct, chunks16_blocks _ hencall, hchunks]
  simp only [cbcEncBlocks, cbcDecBlocks]
  rw [hinv _ hxorlen,
    cbcDecBlocks_cbcEncBlocks _ _ hinv hE _ _ htailblocks hC1len]
  rw [List.flatten_cons, chunks16_flatten, hswap, pkcs7unpad_pkcs7pad]

lemma xor_swap_eq {x u v : Nat} (h : (x ^^^ u) ^^^ v = x) : u = v := by
  have hv : v = ((x ^^^ u) ^^^ ((x ^^^ u) ^^^ v)) := by
    rw [← Nat.xor_assoc, Nat.xor_self, Nat.zero_xor]
  rw [h, Nat.xor_comm x u, Nat.xor_assoc, Nat.xor_self, Nat.xor_zero] at hv
  exact hv.symm

lemma xorBytes_swap_eq : ∀ (a u v : List Nat), a.length = u.length → u.length = v.length →
    xorBytes (xorBytes a u) v = a → u = v := by
  intro a
  induction a with
  | nil =>
    intro u v hau huv _
    have h0 : u.length = 0 := by simpa using hau.symm
    have h1 : v.length = 0 := by omega
    rw [List.length_eq_zero.mp h0, List.length_eq_zero.mp h1]
  | cons x xs ih =>
    intro u v hau huv heq
    cases u with
    | nil => simp at hau
    | cons u0 us =>
      cases v with
      | nil => simp at huv
      | cons v0 vs =>
        simp only [xorBytes, List.zipWith_cons_cons, List.cons.injEq] at heq
        have h0 : u0 = v0 := xor_swap_eq heq.1
        have hrest : us = vs := by
          apply ih us vs (by simpa using hau) (by simpa using huv)
          exact heq.2
        rw [h0, hrest]

lemma tinyCipher_inv {key : List Nat} (hk : 16 ≤ key.length) :
    ∀ b : List Nat, b.length = 16 → tinyCipher.dec key (tinyCipher.enc key b) = b := by
  intro b hb
  show xorBytes (xorBytes b (key.take 16)) (key.take 16) = b
  apply xorBytes_cancel
  rw [hb, List.length_take]
  omega

lemma tinyCipher_len {key : List Nat} (hk : 16 ≤ key.length) :
    ∀ b : List Nat, b.length = 16 → (tinyCipher.enc key b).length = 16 := by
  intro b hb
  show (xorBytes b (key.take 16)).length = 16
  rw [xorBytes_length, hb, List.length_take]
  omega

lemma tinyCipher_bytes {key : List Nat} (hkb : ∀ x ∈ key, x < 256) :
    ∀ b : List Nat, b.length = 16 → (∀ y ∈ b, y < 256) →
      ∀ x ∈ tinyCipher.enc key b, x < 256 := by
  intro b _ hby x hx
  exact xorBytes_bytes b _ hby (fun u hu => hkb u (List.take_subset _ _ hu)) x hx

/-- C1: For every credential plaintext string, decrypting the result of
encrypting it with the same configured encryption key returns the plaintext:
`encrypt` prepends the fresh random 16-byte IV as `iv_hex:cipher_hex` and
`decrypt` splits on the first colon to recover the IV.  The block-cipher
hypotheses are the contract of the library's AES-256 primitive (a keyed
16-byte-block permutation producing bytes); the IV hypothesis is what
`crypto.randomBytes(16)` guarantees. -/
theorem c1_decrypt_encrypt_roundtrip (B : BlockCipher) (encryptionKey cred : String)
    (iv : List Nat) (blob : String)
    (hinv : ∀ b : List Nat, b.length = 16 →
      B.dec (utf8Str encryptionKey) (B.enc (utf8Str encryptionKey) b) = b)
    (hE : ∀ b : List Nat, b.length = 16 →
      (B.enc (utf8Str encryptionKey) b).length = 16)
    (hbyte : ∀ b : List Nat, b.length = 16 → (∀ y ∈ b, y < 256) →
      ∀ x ∈ B.enc (utf8Str encryptionKey) b, x < 256)
    (hivb : ∀ x ∈ iv, x < 256)
    (henc : encrypt B encryptionKey iv (utf8Str cred) = .ok blob) :
    decrypt B encryptionKey blob = .ok (utf8Str cred) := by
  unfold encrypt at henc
  cases h : aesCbcEncrypt B (utf8Str encryptionKey) iv (utf8Str cred) with
  | error e => rw [h] at henc; cases henc
  | ok ct =>
    rw [h] at henc
    obtain ⟨hiv, hkey, hct⟩ := aesCbcEncrypt_ok h
    have hblob : blob = String.mk (hexChars iv ++ ':' :: hexChars ct) := by
      simpa [Except.map] using henc.symm
    have hctbytes : ∀ x ∈ ct, x < 256 := by
      rw [hct]
      exact flatten16_bytes _ hbyte hE _ _
        (chunks16_length_mem _ (by rw [pkcs7pad_length]; omega))
        (chunks16_bytes (pkcs7pad_bytes (utf8Str_lt cred)))
        hiv hivb
    subst hblob
    simp only [decrypt]
    rw [jsSplitColon_append _ (mem_hexChars_ne_colon hivb)]
    rw [List.headD_cons, List.tail_cons, jsJoinColon_jsSplitColon,
      fromHexChars_hexChars iv hivb, fromHexChars_hexChars ct hctbytes]
    exact aesCbc_encrypt_decrypt hinv hE h

/-- Witness for C1 at a concrete 32-byte key, zero IV, and the credential
string `user:pass`, with `tinyCipher` standing in for the AES primitive. -/
theorem c1_witness :
    decrypt tinyCipher "0123456789abcdef0123456789abcdef"
      (match encrypt tinyCipher "0123456789abcdef0123456789abcdef"
          (List.replicate 16 0) (utf8Str "user:pass") with
        | .ok blob => blob
        | .error _ => "") = .ok (utf8Str "user:pass") :=
  c1_decrypt_encrypt_roundtrip tinyCipher "0123456789abcdef0123456789abcdef" "user:pass"
    (List.replicate 16 0) _
    (tinyCipher_inv (by decide)) (tinyCipher_len (by decide)) (tinyCipher_bytes (by decide))
    (by decide) rfl

/-- C10: the functions `encrypt`/`decrypt` require the configured key to be exactly 32
bytes for `aes-256-cbc`; the built-in development fallback key (used whenever
`ENCRYPTION_KEY` is unset) is 43 bytes, so under the default configuration
every `encrypt` call (its IV is always the 16 bytes of `randomBytes(16)`) and
every `decrypt` call on a well-formed `iv_hex:...` blob raises an
invalid-key-length error: the credential vault is unusable. -/
theorem c10_default_key_unusable (B : BlockCipher) (iv pt : List Nat) (blob : String)
    (hiv : iv.length = 16)
    (hbl : (fromHexChars ((jsSplitColon blob.data).headD [])).length = 16) :
    (utf8Str defaultEncryptionKey).length = 43 ∧
    encrypt B defaultEncryptionKey iv pt = .error .invalidKeyLength ∧
    decrypt B defaultEncryptionKey blob = .error .invalidKeyLength := by
  have hklen : (utf8Str defaultEncryptionKey).length = 43 := by decide
  refine ⟨hklen, ?_, ?_⟩
  · unfold encrypt aesCbcEncrypt
    rw [if_neg (show ¬iv.length ≠ 16 by omega), if_pos (show (utf8Str defaultEncryptionKey).length ≠ 32 by omega)]
    rfl
  · simp only [decrypt]
    unfold aesCbcDecrypt
    rw [if_neg (show ¬(fromHexChars ((jsSplitColon blob.data).headD [])).length ≠ 16 by omega),
      if_pos (show (utf8Str defaultEncryptionKey).length ≠ 32 by omega)]

/-- Witness for C10: concrete IV and a well-formed stored blob. -/
theorem c10_witness :
    (utf8Str defaultEncryptionKey).length = 43 ∧
    encrypt tinyCipher defaultEncryptionKey (List.replicate 16 0) [] = .error .invalidKeyLength ∧
    decrypt tinyCipher defaultEncryptionKey
      "00000000000000000000000000000000:" = .error .invalidKeyLength :=
  c10_default_key_unusable tinyCipher (List.replicate 16 0) []
    "00000000000000000000000000000000:" (by decide) (by decide)

/-- C3 counterexample: the claim says decrypting a credential blob whose
IV segment has been tampered with must fail with a decryption error, never a
wrong-but-plausible plaintext.  On the code this is false: tampering the hex
IV segment of a genuine two-block blob (here: flipping the second hex digit)
leaves CBC's final-block padding intact, so `decrypt` returns `.ok` with a
plaintext whose first 16 bytes are garbled — not an error. -/
theorem c3_counterexample :
    (match encrypt tinyCipher "0123456789abcdef0123456789abcdef"
        (List.replicate 16 0) (List.replicate 32 65) with
      | .ok blob =>
          decrypt tinyCipher "0123456789abcdef0123456789abcdef"
            (String.mk ('0' :: '1' :: blob.data.drop 2))
      | .error _ => .error .invalidIvLength)
      = .ok (64 :: List.replicate 31 65)
    ∧ (64 :: List.replicate 31 65) ≠ List.replicate 32 65 :=
  ⟨rfl, by decide⟩

/-- C3 amended: decrypting with a mismatched or tampered input can fail
only through the final-block padding check: a tampered IV segment (still 16
valid hex bytes) on a blob whose padded plaintext spans at least two blocks
does *not* raise a decryption error — `decrypt` succeeds and returns a
plaintext that differs from the original exactly on its first 16 bytes
(first CBC block garbled by the IV swap), the remainder intact. -/
theorem c3_amended_tampered_iv_succeeds (B : BlockCipher)
    (encryptionKey cred : String) (iv iv' ct : List Nat)
    (hinv : ∀ b : List Nat, b.length = 16 →
      B.dec (utf8Str encryptionKey) (B.enc (utf8Str encryptionKey) b) = b)
    (hE : ∀ b : List Nat, b.length = 16 →
      (B.enc (utf8Str encryptionKey) b).length = 16)
    (hbyte : ∀ b : List Nat, b.length = 16 → (∀ y ∈ b, y < 256) →
      ∀ x ∈ B.enc (utf8Str encryptionKey) b, x < 256)
    (hivb : ∀ x ∈ iv, x < 256)
    (hiv' : iv'.length = 16) (hiv'b : ∀ x ∈ iv', x < 256)
    (hlong : 16 ≤ (utf8Str cred).length)
    (hne : iv' ≠ iv)
    (henc : aesCbcEncrypt B (utf8Str encryptionKey) iv (utf8Str cred) = .ok ct) :
    decrypt B encryptionKey (String.mk (hexChars iv' ++ ':' :: hexChars ct))
      = .ok (xorBytes (xorBytes ((utf8Str cred).take 16) iv) iv' ++ (utf8Str cred).drop 16)
    ∧ xorBytes (xorBytes ((utf8Str cred).take 16) iv) iv' ++ (utf8Str cred).drop 16
      ≠ utf8Str cred := by
  obtain ⟨hiv, hkey, hct⟩ := aesCbcEncrypt_ok henc
  have hctbytes : ∀ x ∈ ct, x < 256 := by
    rw [hct]
    exact flatten16_bytes _ hbyte hE _ _
      (chunks16_length_mem _ (by rw [pkcs7pad_length]; omega))
      (chunks16_bytes (pkcs7pad_bytes (utf8Str_lt cred)))
      hiv hivb
  constructor
  · simp only [decrypt]
    rw [jsSplitColon_append _ (mem_hexChars_ne_colon hiv'b)]
    rw [List.headD_cons, List.tail_cons, jsJoinColon_jsSplitColon,
      fromHexChars_hexChars iv' hiv'b, fromHexChars_hexChars ct hctbytes]
    exact aesCbc_decrypt_wrongIv hinv hE hiv' hlong henc
  · intro habs
    have hP1len : ((utf8Str cred).take 16).length = 16 := by
      rw [List.length_take]; omega
    have htake : (xorBytes (xorBytes ((utf8Str cred).take 16) iv) iv'
        ++ (utf8Str cred).drop 16).take 16 = (utf8Str cred).take 16 := by
      conv_rhs => rw [← habs]
    rw [List.take_left' (by rw [xorBytes_length, xorBytes_length, hP1len, hiv, hiv']; rfl)]
      at htake
    exact hne (xorBytes_swap_eq _ _ _ (by omega) (by omega) htake).symm

/-- Witness for the amended C3 at concrete inputs: zero IV swapped for an
IV whose first byte is 1, on a 32-byte plaintext of `A`s. -/
theorem c3_amended_witness :
    decrypt tinyCipher "0123456789abcdef0123456789abcdef"
      (String.mk (hexChars (1 :: List.replicate 15 0)
        ++ ':' :: hexChars (match aesCbcEncrypt tinyCipher
            (utf8Str "0123456789abcdef0123456789abcdef")
            (List.replicate 16 0) (utf8Str "AAAAAAAAAAAAAAAAAAAAAAAAAAAAAAAA") with
          | .ok ct => ct
          | .error _ => [])))
      = .ok (xorBytes (xorBytes ((utf8Str "AAAAAAAAAAAAAAAAAAAAAAAAAAAAAAAA").take 16)
          (List.replicate 16 0)) (1 :: List.replicate 15 0)
          ++ (utf8Str "AAAAAAAAAAAAAAAAAAAAAAAAAAAAAAAA").drop 16)
    ∧ xorBytes (xorBytes ((utf8Str "AAAAAAAAAAAAAAAAAAAAAAAAAAAAAAAA").take 16)
        (List.replicate 16 0)) (1 :: List.replicate 15 0)
        ++ (utf8Str "AAAAAAAAAAAAAAAAAAAAAAAAAAAAAAAA").drop 16
      ≠ utf8Str "AAAAAAAAAAAAAAAAAAAAAAAAAAAAAAAA" :=
  c3_amended_tampered_iv_succeeds tinyCipher "0123456789abcdef0123456789abcdef"
    "AAAAAAAAAAAAAAAAAAAAAAAAAAAAAAAA"
    (List.replicate 16 0) (1 :: List.replicate 15 0) _
    (tinyCipher_inv (by decide)) (tinyCipher_len (by decide)) (tinyCipher_bytes (by decide))
    (by decide) (by decide) (by decide) (by decide) (by decide) rfl

/-- C5: the needs-response classification returns `true` exactly when the
model call (and JSON parsing) succeeded with `needsResponse = true` and
confidence strictly above `0.7`; every failure of the call chain yields
`false`. -/
theorem c5_needs_response_rule (llm : String → String → Except String ClassifyResult)
    (emailBody subject : String) :
    (determineIfNeedsResponse llm emailBody subject = true
      ↔ ∃ r : ClassifyResult, llm emailBody subject = .ok r
          ∧ r.needsResponse = true ∧ mkRat 7 10 < r.confidence)
    ∧ ∀ e : String, llm emailBody subject = .error e →
        determineIfNeedsResponse llm emailBody subject = false := by
  constructor
  · unfold determineIfNeedsResponse
    cases h : llm emailBody subject with
    | error e => simp
    | ok r =>
      simp only [Bool.and_eq_true, decide_eq_true_eq, Except.ok.injEq]
      constructor
      · rintro ⟨h1, h2⟩
        exact ⟨r, rfl, h1, h2⟩
      · rintro ⟨r', hr', h1, h2⟩
        cases hr'
        exact ⟨h1, h2⟩
  · intro e he
    unfold determineIfNeedsResponse
    rw [he]

/-- Witness for C5: a confident positive verdict classifies as needing a
response; a failed call classifies as not needing one. -/
theorem c5_witness :
    determineIfNeedsResponse (fun _ _ => Except.ok ⟨true, mkRat 9 10⟩) "body" "subj" = true
    ∧ determineIfNeedsResponse (fun _ _ => Except.error "api down") "body" "subj" = false :=
  ⟨(c5_needs_response_rule (fun _ _ => Except.ok ⟨true, mkRat 9 10⟩) "body" "subj").1.mpr
      ⟨⟨true, mkRat 9 10⟩, rfl, rfl, by decide⟩,
   (c5_needs_response_rule (fun _ _ => Except.error "api down") "body" "subj").2 "api down" rfl⟩

/-- C7: a fetched message is kept by the adapter's fetch exactly when all
of messageId, from, to and text are present (truthy); a message missing any of
them is excluded from the result list — the fetch neither fails nor retries on
such messages (it is a plain filter). -/
theorem c7_fetch_filter (parsedMessages : List PartialEmailData) (m : PartialEmailData) :
    m ∈ fetchEmails parsedMessages
      ↔ m ∈ parsedMessages ∧ truthyStr m.messageId = true ∧ truthyStr m.fromAddr = true
        ∧ truthyStr m.toAddr = true ∧ truthyStr m.text = true := by
  unfold fetchEmails keepMessage
  rw [List.mem_filter]
  simp [Bool.and_eq_true, and_assoc]

/-- C8 counterexample: the claim says that when an edited body is
supplied, `draftResponse` becomes the edited body.  Supplying the (edited)
empty string falsifies it: `editedResponse || draftResponse` treats `''` as
absent, the send succeeds, and `draftResponse` stays `"Hello Alice"` instead
of becoming `""`. -/
theorem c8_counterexample :
    (sendEmail 1 1 (some "") 99 (Except.ok ()) (fun _ => Except.ok ()) demoStoreSend).1.success
      = true
    ∧ (getEmailResponse
        (sendEmail 1 1 (some "") 99 (Except.ok ()) (fun _ => Except.ok ()) demoStoreSend).2.1
        1).map EmailResponse.draftResponse = some "Hello Alice"
    ∧ some "Hello Alice" ≠ some "" :=
  ⟨rfl, rfl, by decide⟩

/-- C8 amended: sending succeeds only if the EmailResponse, its
referenced Email and the user's EmailSettings all exist; every failure path
(including credential or transport failure) returns a failure with the store
unchanged.  On success the response's status becomes `sent` and `sentAt` is
set, and `draftResponse` is unaltered unless a *non-empty* edited body was
supplied (JS `||` treats an empty edit as absent), in which case it becomes
the edited body. -/
theorem c8_amended_send_updates (userId responseId : Nat) (editedResponse : Option String)
    (now : Nat) (credentialsOk : Except String Unit)
    (transport : SentMessage → Except String Unit) (s : MemStorage)
    (res : SendResult) (s' : MemStorage) (m : Option SentMessage)
    (h : sendEmail userId responseId editedResponse now credentialsOk transport s
      = (res, s', m)) :
    (res.success = false → s' = s)
    ∧ (res.success = true →
        (getEmailResponse s responseId).isSome = true
        ∧ (∀ r0, getEmailResponse s responseId = some r0 →
            (getEmail s r0.emailId).isSome = true)
        ∧ (getEmailSettings s userId).isSome = true
        ∧ getEmailResponse s' responseId = (getEmailResponse s responseId).map
            (fun r0 =>
              { r0 with
                  status := "sent", sentAt := some now, updatedAt := now,
                  draftResponse := jsOrStr editedResponse r0.draftResponse })) := by
  unfold sendEmail at h
  cases hr : getEmailResponse s responseId with
  | none =>
    simp only [hr, Prod.mk.injEq] at h
    obtain ⟨h1, h2, -⟩ := h
    subst h1; subst h2
    exact ⟨fun _ => rfl, fun habs => by cases habs⟩
  | some resp =>
    simp only [hr] at h
    cases he : getEmail s resp.emailId with
    | none =>
      simp only [he, Prod.mk.injEq] at h
      obtain ⟨h1, h2, -⟩ := h
      subst h1; subst h2
      exact ⟨fun _ => rfl, fun habs => by cases habs⟩
    | some email =>
      simp only [he] at h
      cases hst : getEmailSettings s userId with
      | none =>
        simp only [hst, Prod.mk.injEq] at h
        obtain ⟨h1, h2, -⟩ := h
        subst h1; subst h2
        exact ⟨fun _ => rfl, fun habs => by cases habs⟩
      | some settings =>
        simp only [hst] at h
        cases credentialsOk with
        | error e =>
          simp only [Prod.mk.injEq] at h
          obtain ⟨h1, h2, -⟩ := h
          subst h1; subst h2
          exact ⟨fun _ => rfl, fun habs => by cases habs⟩
        | ok _ =>
          cases ht : transport (buildReply settings email resp editedResponse) with
          | error e =>
            simp only [ht, Prod.mk.injEq] at h
            obtain ⟨h1, h2, -⟩ := h
            subst h1; subst h2
            exact ⟨fun _ => rfl, fun habs => by cases habs⟩
          | ok _ =>
            simp only [ht, Prod.mk.injEq] at h
            obtain ⟨h1, h2, -⟩ := h
            subst h1; subst h2
            refine ⟨(fun habs => by cases habs), fun _ => ?_⟩
            refine ⟨rfl, ?_, rfl, ?_⟩
            · intro r0 hr0
              cases hr0
              rw [he]
              rfl
            · unfold updateEmailResponse
              rw [hr]
              simp only [Option.map_some]
              unfold getEmailResponse
              have hfind : ∀ l : List EmailResponse,
                  l.find? (fun r => r.id == responseId) = some resp →
                  (l.map (fun r => if r.id == responseId
                      then { r with
                               status := "sent", sentAt := some now,
                               draftResponse := jsOrStr editedResponse resp.draftResponse,
                               updatedAt := now } else r)).find?
                      (fun r => r.id == responseId)
                    = some { resp with
                               status := "sent", sentAt := some now,
                               draftResponse := jsOrStr editedResponse resp.draftResponse,
                               updatedAt := now } := by
                intro l
                induction l with
                | nil => intro hf; cases hf
                | cons x xs ih =>
                  intro hf
                  by_cases hx : (x.id == responseId) = true
                  · rw [List.find?_cons, hx] at hf
                    have hf' : some x = some resp := hf
                    cases hf'
                    rw [List.map_cons, if_pos hx]
                    simp [List.find?_cons, hx]
                  · have hx' : (x.id == responseId) = false := by
                      simpa using hx
                    rw [List.find?_cons, hx'] at hf
                    have hf' : List.find? (fun r => r.id == responseId) xs = some resp := hf
                    rw [List.map_cons, if_neg hx, List.find?_cons, hx']
                    exact ih hf'
              exact hfind s.emailResponses hr

/-- Witness for the amended C8: a successful send with a non-empty edit
stamps status/sentAt/updatedAt and installs the edited body. -/
theorem c8_amended_witness :
    getEmailResponse
        (sendEmail 1 1 (some "Edited body") 99 (Except.ok ()) (fun _ => Except.ok ())
          demoStoreSend).2.1 1
      = (getEmailResponse demoStoreSend 1).map
          (fun r0 =>
            { r0 with
                status := "sent", sentAt := some 99, updatedAt := 99,
                draftResponse := jsOrStr (some "Edited body") r0.draftResponse }) :=
  ((c8_amended_send_updates 1 1 (some "Edited body") 99 (Except.ok ())
      (fun _ => Except.ok ()) demoStoreSend _ _ _ rfl).2 rfl).2.2.2

/-- C9 counterexample: the claim says the outgoing Subject is the
original subject with `Re: ` prepended when it does not already start with
`Re:`.  For an original email with empty subject that would give `"Re: "`,
but the code substitutes the `(No subject)` placeholder: the sent message's
subject is `"Re: (No subject)"`. -/
theorem c9_counterexample :
    ((sendEmail 1 1 none 99 (Except.ok ()) (fun _ => Except.ok ())
        demoStoreEmptySubject).2.2).map SentMessage.subject = some "Re: (No subject)"
    ∧ some "Re: (No subject)" ≠ some ("Re: " ++ "") :=
  ⟨rfl, by decide⟩

/-- C9 amended: the reply sent for an email has `In-Reply-To` and
`References` equal to the original message-id; its Subject is the original
subject when that already starts with `Re:`, otherwise `Re: ` prepended to
the original subject when that is non-empty, and `Re: (No subject)` when it
is empty; and the recipient is the first angle-bracketed address of the
original From header, else the trailing non-space token, else the raw From
value. -/
theorem c9_amended_reply_construction (userId responseId : Nat)
    (editedResponse : Option String) (now : Nat) (credentialsOk : Except String Unit)
    (transport : SentMessage → Except String Unit) (s : MemStorage)
    (res : SendResult) (s' : MemStorage) (msg : SentMessage)
    (resp : EmailResponse) (email : Email)
    (h : sendEmail userId responseId editedResponse now credentialsOk transport s
      = (res, s', some msg))
    (hr : getEmailResponse s responseId = some resp)
    (he : getEmail s resp.emailId = some email) :
    msg.references = email.messageId
    ∧ msg.inReplyTo = email.messageId
    ∧ (jsStartsWith email.subject.data "Re:".data = true → msg.subject = email.subject)
    ∧ (jsStartsWith email.subject.data "Re:".data = false → email.subject ≠ "" →
        msg.subject = "Re: " ++ email.subject)
    ∧ (email.subject = "" → msg.subject = "Re: (No subject)")
    ∧ (∀ inner, firstBracketCapture email.fromAddr.data = some inner → msg.toAddr = inner)
    ∧ (firstBracketCapture email.fromAddr.data = none →
        ∀ tok, trailingTokenCapture email.fromAddr.data = some tok → msg.toAddr = tok)
    ∧ (firstBracketCapture email.fromAddr.data = none →
        trailingTokenCapture email.fromAddr.data = none → msg.toAddr = email.fromAddr) := by
  have hmsg : msg = buildReply ((getEmailSettings s userId).getD demoSettings) email resp
      editedResponse := by
    unfold sendEmail at h
    rw [hr] at h
    simp only [] at h
    rw [he] at h
    cases hst : getEmailSettings s userId with
    | none =>
      simp only [hst, Prod.mk.injEq] at h
      obtain ⟨-, -, h3⟩ := h
      cases h3
    | some settings =>
      simp only [hst, Prod.mk.injEq] at h
      cases credentialsOk with
      | error e => simp at h
      | ok _ =>
        cases ht : transport (buildReply settings email resp editedResponse) with
        | error e =>
          rw [ht] at h
          simp only [Prod.mk.injEq] at h
          obtain ⟨-, -, h3⟩ := h
          cases h3
        | ok _ =>
          rw [ht] at h
          simp only [Prod.mk.injEq] at h
          obtain ⟨-, -, h3⟩ := h
          cases h3
          rfl
  subst hmsg
  unfold buildReply
  refine ⟨rfl, rfl, ?_, ?_, ?_, ?_, ?_, ?_⟩
  · intro hsw
    simp only [replySubject, hsw, if_true]
  · intro hsw hne
    simp only [replySubject, hsw, Bool.false_eq_true, if_false, if_neg hne]
  · intro hempty
    have hsw : jsStartsWith email.subject.data "Re:".data = false := by
      rw [hempty]
      rfl
    simp only [replySubject, hsw, Bool.false_eq_true, if_false, if_pos hempty]
    rfl
  · intro inner hinner
    simp only [extractReplyTo, hinner]
  · intro hnone tok htok
    simp only [extractReplyTo, hnone, htok]
  · intro hnone hnone'
    simp only [extractReplyTo, hnone, hnone']

/-- Witness for the amended C9 at `demoStoreSend`: the reply to
`Alice Smith <alice@example.com>` with subject `Hi` carries
`References = In-Reply-To = m1`, subject `Re: Hi`, recipient
`alice@example.com`. -/
theorem c9_amended_witness :
    ({ fromAddr := "user@example.com", toAddr := "alice@example.com", subject := "Re: Hi",
       text := "Hello Alice", references := "m1", inReplyTo := "m1" } : SentMessage).references
      = demoEmail.messageId
    ∧ ({ fromAddr := "user@example.com", toAddr := "alice@example.com", subject := "Re: Hi",
         text := "Hello Alice", references := "m1", inReplyTo := "m1" } : SentMessage).toAddr
      = "alice@example.com" :=
  ⟨(c9_amended_reply_construction 1 1 none 99 (Except.ok ()) (fun _ => Except.ok ())
      demoStoreSend { success := true, error := none } _ _ demoResponse demoEmail
      rfl rfl rfl).1,
   (c9_amended_reply_construction 1 1 none 99 (Except.ok ()) (fun _ => Except.ok ())
      demoStoreSend { success := true, error := none } _ _ demoResponse demoEmail
      rfl rfl rfl).2.2.2.2.2.1 "alice@example.com" rfl⟩

/-! ### Frame lemmas: which tables each operation touches -/

lemma createEmail_settings (s : MemStorage) (ins : InsertEmail) (now : Nat) :
    ((createEmail s ins now).2).emailSettings = s.emailSettings := rfl

lemma updateEmail_settings (s : MemStorage) (id : Nat) (patch : Email → Email) :
    (updateEmail s id patch).emailSettings = s.emailSettings := by
  unfold updateEmail
  split <;> rfl

lemma createEmailResponse_settings (s : MemStorage) (ins : InsertEmailResponse) (now : Nat) :
    ((createEmailResponse s ins now).2).emailSettings = s.emailSettings := rfl

lemma generateEmailResponse_settings (draft : Nat → Option DraftResult)
    (userId emailId now : Nat) (s : MemStorage) :
    ((generateEmailResponse draft userId emailId now s).2).emailSettings = s.emailSettings := by
  unfold generateEmailResponse
  split
  · rfl
  · split
    · rfl
    · simp [updateEmail_settings, createEmailResponse_settings]

lemma processFetched_settings (llm : String → String → Except String ClassifyResult)
    (draft : Nat → Option DraftResult) (userId now : Nat) :
    ∀ (l : List EmailData) (s : MemStorage),
      ((processFetched llm draft userId now s l).1).emailSettings = s.emailSettings := by
  intro l
  induction l with
  | nil => intro s; rfl
  | cons e rest ih =>
    intro s
    unfold processFetched
    cases hex : getEmailByMessageId s e.messageId with
    | some _ => simp only []; exact ih s
    | none =>
      simp only []
      rw [ih]
      unfold syncStepStore
      simp only []
      split
      · rw [generateEmailResponse_settings, createEmail_settings]
      · rw [createEmail_settings]

lemma find?_userId_map_set (uid : Nat) (st upd : EmailSettings)
    (hupd : upd.userId = st.userId) :
    ∀ l : List EmailSettings, l.find? (fun x => x.userId == uid) = some st →
      (l.map fun x => if x.id == st.id then upd else x).find? (fun x => x.userId == uid)
        = some upd := by
  intro l
  induction l with
  | nil => intro hf; cases hf
  | cons x xs ih =>
    intro hf
    by_cases hx : (x.userId == uid) = true
    · rw [List.find?_cons, hx] at hf
      have hf' : some x = some st := hf
      cases hf'
      rw [List.map_cons, if_pos (by simp), List.find?_cons]
      have hupduid : (upd.userId == uid) = true := by rw [hupd]; exact hx
      rw [hupduid]
    · have hx' : (x.userId == uid) = false := by simpa using hx
      rw [List.find?_cons, hx'] at hf
      have hf' : xs.find? (fun x => x.userId == uid) = some st := hf
      rw [List.map_cons, List.find?_cons]
      by_cases hxid : (x.id == st.id) = true
      · rw [if_pos hxid]
        have hstuid : (st.userId == uid) = true := by
          have := List.find?_some hf'
          simpa using this
        have hupduid : (upd.userId == uid) = true := by rw [hupd]; exact hstuid
        rw [hupduid]
      · rw [if_neg hxid, hx']
        exact ih hf'

lemma getEmailSettings_updateEmailSettings (s : MemStorage) (uid : Nat)
    (patch : EmailSettings → EmailSettings) (now : Nat) (st : EmailSettings)
    (h : getEmailSettings s uid = some st)
    (hpu : (patch st).userId = st.userId) :
    getEmailSettings (updateEmailSettings s uid patch now) uid
      = some { patch st with updatedAt := now } := by
  unfold updateEmailSettings
  rw [h]
  show (s.emailSettings.map fun x =>
      if x.id == st.id then { patch st with updatedAt := now } else x).find?
      (fun x => x.userId == uid) = some { patch st with updatedAt := now }
  exact find?_userId_map_set uid st { patch st with updatedAt := now } hpu s.emailSettings h

/-- C4: after a successful sync pass the user's `lastSynced` is advanced
to now (whatever the fetched list was — including empty, and with malformed
messages already dropped upstream by the fetch filter); after a failed pass
(settings absent, integration inactive, connection or fetch error) the store
is unchanged; and the pass consults the fetch only at the watermark
`lastSynced ?? now - 3 days`, so an unchanged store means the next sync
starts from the same watermark. -/
theorem c4_last_synced_semantics (userId now : Nat) (conn : Except String Unit)
    (fetch : Nat → Except String (List EmailData))
    (llm : String → String → Except String ClassifyResult)
    (draft : Nat → Option DraftResult) (s : MemStorage)
    (r : SyncResult) (s' : MemStorage) (log : List String)
    (h : syncEmails userId now conn fetch llm draft s = (r, s', log)) :
    (r.success = true →
      (getEmailSettings s' userId).map EmailSettings.lastSynced = some (some now))
    ∧ (r.success = false → s' = s)
    ∧ (∀ st, getEmailSettings s userId = some st →
        ∀ fetch2 : Nat → Except String (List EmailData),
          fetch2 (syncWatermark st now) = fetch (syncWatermark st now) →
          syncEmails userId now conn fetch2 llm draft s = (r, s', log)) := by
  unfold syncEmails at h
  cases hset : getEmailSettings s userId with
  | none =>
    simp only [hset, Prod.mk.injEq] at h
    obtain ⟨h1, h2, h3⟩ := h
    subst h1; subst h2; subst h3
    refine ⟨(fun habs => by cases habs), fun _ => rfl, ?_⟩
    intro st hst
    cases hst
  | some st =>
    simp only [hset] at h
    cases hact : st.active with
    | false =>
      rw [if_pos hact] at h
      simp only [Prod.mk.injEq] at h
      obtain ⟨h1, h2, h3⟩ := h
      subst h1; subst h2; subst h3
      refine ⟨(fun habs => by cases habs), fun _ => rfl, ?_⟩
      intro st' hst'
      cases hst'
      intro fetch2 _
      unfold syncEmails
      simp only [hset]
      rw [if_pos hact]
    | true =>
      rw [if_neg (by simp [hact])] at h
      cases conn with
      | error e =>
        simp only [Prod.mk.injEq] at h
        obtain ⟨h1, h2, h3⟩ := h
        subst h1; subst h2; subst h3
        refine ⟨(fun habs => by cases habs), fun _ => rfl, ?_⟩
        intro st' hst'
        cases hst'
        intro fetch2 _
        unfold syncEmails
        simp only [hset]
        rw [if_neg (by simp [hact])]
      | ok u =>
        cases hf : fetch (syncWatermark st now) with
        | error e =>
          simp only [hf, Prod.mk.injEq] at h
          obtain ⟨h1, h2, h3⟩ := h
          subst h1; subst h2; subst h3
          refine ⟨(fun habs => by cases habs), fun _ => rfl, ?_⟩
          intro st' hst'
          cases hst'
          intro fetch2 hf2
          unfold syncEmails
          simp only [hset]
          rw [if_neg (by simp [hact])]
          rw [hf2, hf]
        | ok fetched =>
          simp only [hf, Prod.mk.injEq] at h
          obtain ⟨h1, h2, h3⟩ := h
          subst h1; subst h2; subst h3
          refine ⟨fun _ => ?_, (fun habs => by cases habs), ?_⟩
          · have hsetpf : getEmailSettings
                (processFetched llm draft userId now s fetched).1 userId = some st := by
              unfold getEmailSettings
              rw [processFetched_settings]
              exact hset
            rw [getEmailSettings_updateEmailSettings _ _ _ _ _ hsetpf rfl]
            rfl
          · intro st' hst'
            cases hst'
            intro fetch2 hf2
            unfold syncEmails
            simp only [hset]
            rw [if_neg (by simp [hact])]
            rw [hf2, hf]

/-- Witness for C4: a successful pass over an empty inbox advances
`lastSynced` to now. -/
theorem c4_witness :
    (getEmailSettings
        (syncEmails 1 1000 (Except.ok ()) (fun _ => Except.ok [])
          (fun _ _ => Except.error "llm down") (fun _ => none) demoStore).2.1 1).map
        EmailSettings.lastSynced = some (some 1000) :=
  (c4_last_synced_semantics 1 1000 (Except.ok ()) (fun _ => Except.ok [])
      (fun _ _ => Except.error "llm down") (fun _ => none) demoStore _ _ _ rfl).1 rfl

/-! ### Lemmas for the dedup (C2) and no-spontaneous-response (C6) claims -/

lemma updateEmail_responses (s : MemStorage) (id : Nat) (patch : Email → Email) :
    (updateEmail s id patch).emailResponses = s.emailResponses := by
  unfold updateEmail
  split <;> rfl

lemma updateEmail_emailId (s : MemStorage) (id : Nat) (patch : Email → Email) :
    (updateEmail s id patch).emailId = s.emailId := by
  unfold updateEmail
  split <;> rfl

lemma updateEmailSettings_emails (s : MemStorage) (uid : Nat)
    (patch : EmailSettings → EmailSettings) (now : Nat) :
    (updateEmailSettings s uid patch now).emails = s.emails := by
  unfold updateEmailSettings
  split <;> rfl

lemma updateEmailSettings_responses (s : MemStorage) (uid : Nat)
    (patch : EmailSettings → EmailSettings) (now : Nat) :
    (updateEmailSettings s uid patch now).emailResponses = s.emailResponses := by
  unfold updateEmailSettings
  split <;> rfl

lemma map_proj_ite {α β : Type} (f : α → β) (g : α → α) (p : α → Bool)
    (hf : ∀ a, f (g a) = f a) :
    ∀ l : List α, (l.map fun a => if p a then g a else a).map f = l.map f := by
  intro l
  induction l with
  | nil => rfl
  | cons x xs ih =>
    simp only [List.map_cons, ih]
    by_cases hp : p x = true
    · rw [if_pos hp, hf]
    · rw [if_neg hp]

lemma updateEmail_map_proj {β : Type} (f : Email → β) (s : MemStorage) (id : Nat)
    (patch : Email → Email) (hf : ∀ e, f (patch e) = f e) :
    (updateEmail s id patch).emails.map f = s.emails.map f := by
  unfold updateEmail
  split
  · rfl
  · exact map_proj_ite f patch _ hf s.emails

lemma generateEmailResponse_emails_map {β : Type} (f : Email → β)
    (hf : ∀ e : Email, f { e with responseGenerated := true } = f e)
    (draft : Nat → Option DraftResult) (userId emailId now : Nat) (s : MemStorage) :
    ((generateEmailResponse draft userId emailId now s).2).emails.map f
      = s.emails.map f := by
  unfold generateEmailResponse
  split
  · rfl
  · split
    · rfl
    · rw [updateEmail_map_proj _ _ _ _ hf]
      rfl

lemma generateEmailResponse_emailId (draft : Nat → Option DraftResult)
    (userId emailId now : Nat) (s : MemStorage) :
    ((generateEmailResponse draft userId emailId now s).2).emailId = s.emailId := by
  unfold generateEmailResponse
  split
  · rfl
  · split
    · rfl
    · rw [updateEmail_emailId]
      rfl

lemma generateEmailResponse_responses (draft : Nat → Option DraftResult)
    (userId emailId now : Nat) (s : MemStorage) :
    ∀ r ∈ ((generateEmailResponse draft userId emailId now s).2).emailResponses,
      r ∈ s.emailResponses ∨ r.emailId = emailId := by
  unfold generateEmailResponse
  cases hge : getEmail s emailId with
  | none => intro r hr; exact Or.inl hr
  | some email =>
    cases hd : draft emailId with
    | none => intro r hr; exact Or.inl hr
    | some result =>
      intro r hr
      have heid : email.id = emailId := by
        have := List.find?_some hge
        simpa using this
      have hr' : r ∈ (updateEmail
          ((createEmailResponse s
            { emailId := email.id, userId := userId, draftResponse := result.draftResponse,
              suggestedActions := result.suggestedActions, status := "draft" } now).2)
          emailId (fun e => { e with responseGenerated := true })).emailResponses := hr
      rw [updateEmail_responses] at hr'
      have hr'' : r ∈ s.emailResponses ++
          [((createEmailResponse s
            { emailId := email.id, userId := userId, draftResponse := result.draftResponse,
              suggestedActions := result.suggestedActions, status := "draft" } now).1)] := hr'
      rcases List.mem_append.mp hr'' with hmem | hmem
      · exact Or.inl hmem
      · right
        have : r = (createEmailResponse s
            { emailId := email.id, userId := userId, draftResponse := result.draftResponse,
              suggestedActions := result.suggestedActions, status := "draft" } now).1 := by
          simpa using hmem
        rw [this]
        exact heid

lemma getEmailByMessageId_none (s : MemStorage) (mid : String) :
    getEmailByMessageId s mid = none ↔ mid ∉ s.emails.map Email.messageId := by
  unfold getEmailByMessageId
  rw [List.find?_eq_none]
  simp only [beq_iff_eq, List.mem_map, not_exists, not_and]

lemma syncStepStore_map {β : Type} (f : Email → β)
    (hf : ∀ e : Email, f { e with responseGenerated := true } = f e)
    (llm : String → String → Except String ClassifyResult)
    (draft : Nat → Option DraftResult) (userId now : Nat) (e : EmailData) (s : MemStorage) :
    (syncStepStore llm draft userId now e s).emails.map f
      = s.emails.map f
        ++ [f ((createEmail s (insertEmailOfData userId e
            (determineIfNeedsResponse llm e.text (jsOrStr e.subject ""))) now).1)] := by
  unfold syncStepStore
  simp only []
  split
  · rw [generateEmailResponse_emails_map f hf]
    show ((s.emails ++ [_]).map f) = _
    rw [List.map_append]
    rfl
  · show ((s.emails ++ [_]).map f) = _
    rw [List.map_append]
    rfl

lemma syncStepStore_emailId
    (llm : String → String → Except String ClassifyResult)
    (draft : Nat → Option DraftResult) (userId now : Nat) (e : EmailData) (s : MemStorage) :
    (syncStepStore llm draft userId now e s).emailId = s.emailId + 1 := by
  unfold syncStepStore
  simp only []
  split
  · rw [generateEmailResponse_emailId]
    rfl
  · rfl

lemma syncStepStore_settings
    (llm : String → String → Except String ClassifyResult)
    (draft : Nat → Option DraftResult) (userId now : Nat) (e : EmailData) (s : MemStorage) :
    (syncStepStore llm draft userId now e s).emailSettings = s.emailSettings := by
  unfold syncStepStore
  simp only []
  split
  · rw [generateEmailResponse_settings, createEmail_settings]
  · rw [createEmail_settings]

lemma syncStepStore_responses
    (llm : String → String → Except String ClassifyResult)
    (draft : Nat → Option DraftResult) (userId now : Nat) (e : EmailData) (s : MemStorage) :
    ∀ r ∈ (syncStepStore llm draft userId now e s).emailResponses,
      r ∈ s.emailResponses
      ∨ (r.emailId = s.emailId
         ∧ ((createEmail s (insertEmailOfData userId e
             (determineIfNeedsResponse llm e.text (jsOrStr e.subject ""))) now).1).needsResponse
           = true) := by
  unfold syncStepStore
  simp only []
  split
  · rename_i hcond
    intro r hr
    rcases generateEmailResponse_responses _ _ _ _ _ r hr with hmem | heid
    · exact Or.inl hmem
    · exact Or.inr ⟨heid, hcond⟩
  · intro r hr
    exact Or.inl hr

lemma syncStepStore_idInv
    (llm : String → String → Except String ClassifyResult)
    (draft : Nat → Option DraftResult) (userId now : Nat) (e : EmailData) (s : MemStorage)
    (hid : ∀ x ∈ s.emails, x.id < s.emailId) :
    ∀ x ∈ (syncStepStore llm draft userId now e s).emails,
      x.id < (syncStepStore llm draft userId now e s).emailId := by
  intro x hx
  have hmap : x.id ∈ (syncStepStore llm draft userId now e s).emails.map Email.id :=
    List.mem_map_of_mem _ hx
  rw [syncStepStore_map Email.id (fun _ => rfl), syncStepStore_emailId] at *
  rcases List.mem_append.mp hmap with hmem | hmem
  · obtain ⟨y, hy, hyx⟩ := List.mem_map.mp hmem
    have := hid y hy
    omega
  · have : x.id = s.emailId := by simpa using hmem
    omega

lemma processFetched_map_extends {β : Type} (f : Email → β)
    (hf : ∀ e : Email, f { e with responseGenerated := true } = f e)
    (llm : String → String → Except String ClassifyResult)
    (draft : Nat → Option DraftResult) (userId now : Nat) :
    ∀ (l : List EmailData) (s : MemStorage),
      ∃ t, ((processFetched llm draft userId now s l).1).emails.map f
        = s.emails.map f ++ t := by
  intro l
  induction l with
  | nil => intro s; exact ⟨[], by simp only [processFetched, List.append_nil]⟩
  | cons e rest ih =>
    intro s
    unfold processFetched
    cases hex : getEmailByMessageId s e.messageId with
    | some _ => simp only []; exact ih s
    | none =>
      simp only []
      obtain ⟨t, ht⟩ := ih (syncStepStore llm draft userId now e s)
      refine ⟨f ((createEmail s (insertEmailOfData userId e
        (determineIfNeedsResponse llm e.text (jsOrStr e.subject ""))) now).1) :: t, ?_⟩
      rw [ht, syncStepStore_map f hf]
      simp

lemma processFetched_msgIds_nodup
    (llm : String → String → Except String ClassifyResult)
    (draft : Nat → Option DraftResult) (userId now : Nat) :
    ∀ (l : List EmailData) (s : MemStorage),
      ((s.emails.map Email.messageId).Nodup) →
      (((processFetched llm draft userId now s l).1).emails.map Email.messageId).Nodup
      ∧ ((processFetched llm draft userId now s l).2.2).Nodup
      ∧ ∀ m ∈ (processFetched llm draft userId now s l).2.2,
          m ∉ s.emails.map Email.messageId := by
  intro l
  induction l with
  | nil =>
    intro s hnd
    exact ⟨hnd, List.nodup_nil, fun m hm => absurd hm (List.not_mem_nil m)⟩
  | cons e rest ih =>
    intro s hnd
    unfold processFetched
    cases hex : getEmailByMessageId s e.messageId with
    | some _ => simp only []; exact ih s hnd
    | none =>
      simp only []
      have hmid : e.messageId ∉ s.emails.map Email.messageId :=
        (getEmailByMessageId_none s e.messageId).mp hex
      have hstep : (syncStepStore llm draft userId now e s).emails.map Email.messageId
          = s.emails.map Email.messageId ++ [e.messageId] := by
        rw [syncStepStore_map Email.messageId (fun _ => rfl)]
        rfl
      have hnd2 : ((syncStepStore llm draft userId now e s).emails.map
          Email.messageId).Nodup := by
        rw [hstep]
        rw [List.nodup_append]
        refine ⟨hnd, List.nodup_singleton _, ?_⟩
        intro a ha hax
        have : a = e.messageId := by simpa using hax
        rw [this] at ha
        exact hmid ha
      obtain ⟨h1, h2, h3⟩ := ih (syncStepStore llm draft userId now e s) hnd2
      refine ⟨h1, ?_, ?_⟩
      · rw [List.nodup_cons]
        refine ⟨?_, h2⟩
        intro hmem
        have hnotin := h3 e.messageId hmem
        rw [hstep] at hnotin
        exact hnotin (List.mem_append_right _ (List.mem_singleton.mpr rfl))
      · intro m hm
        rcases List.mem_cons.mp hm with rfl | hm'
        · exact hmid
        · intro habs
          have hnotin := h3 m hm'
          rw [hstep] at hnotin
          exact hnotin (List.mem_append_left _ habs)

lemma processFetched_responses_source
    (llm : String → String → Except String ClassifyResult)
    (draft : Nat → Option DraftResult) (userId now : Nat) :
    ∀ (l : List EmailData) (s : MemStorage), (∀ x ∈ s.emails, x.id < s.emailId) →
      ∀ r ∈ ((processFetched llm draft userId now s l).1).emailResponses,
        r ∈ s.emailResponses
        ∨ (r.emailId, true) ∈ ((processFetched llm draft userId now s l).1).emails.map
            (fun x => (x.id, x.needsResponse)) := by
  intro l
  induction l with
  | nil => intro s _ r hr; exact Or.inl hr
  | cons e rest ih =>
    intro s hid
    unfold processFetched
    cases hex : getEmailByMessageId s e.messageId with
    | some _ => simp only []; exact ih s hid
    | none =>
      simp only []
      intro r hr
      rcases ih (syncStepStore llm draft userId now e s)
          (syncStepStore_idInv llm draft userId now e s hid) r hr with hmem | hpair
      · rcases syncStepStore_responses llm draft userId now e s r hmem with hmem2 | hnew
        · exact Or.inl hmem2
        · right
          obtain ⟨t, ht⟩ := processFetched_map_extends (fun x => (x.id, x.needsResponse))
            (fun _ => rfl) llm draft userId now rest (syncStepStore llm draft userId now e s)
          rw [ht]
          apply List.mem_append_left
          rw [syncStepStore_map (fun x => (x.id, x.needsResponse)) (fun _ => rfl)]
          apply List.mem_append_right
          simp only [List.mem_singleton]
          rw [hnew.1]
          rw [show ((createEmail s (insertEmailOfData userId e
              (determineIfNeedsResponse llm e.text (jsOrStr e.subject ""))) now).1).needsResponse
            = true from hnew.2]
          rfl
      · exact Or.inr hpair

/-- C2 counterexample: the claim's final conjunct — after any sequence
of `createEmail` calls each messageId maps to at most one row — fails on
`MemStorage.createEmail`, which spreads the insert row and stores it without
any uniqueness check: two bare inserts of the same messageId yield two
rows. -/
theorem c2_counterexample :
    (((createEmail (createEmail demoStore demoInsert 0).2 demoInsert 0).2).emails.filter
        (fun e => e.messageId == "m1")).length = 2 := by
  decide

/-- C2 amended: within a sync pass the orchestrator's existence check by
messageId short-circuits before classification: starting from a store whose
messageIds are duplicate-free, after the pass they still are (a message
delivered twice in one pass causes no second row), the classification-call
log has no duplicates (no duplicate LLM call), and every classified
messageId was absent from the store when the pass began.  Bare
`createEmail`, by contrast, checks nothing (see the counterexample); the
at-most-one-row property holds for guarded inserts, not for arbitrary
`createEmail` call sequences. -/
theorem c2_amended_messageId_dedup (userId now : Nat) (conn : Except String Unit)
    (fetch : Nat → Except String (List EmailData))
    (llm : String → String → Except String ClassifyResult)
    (draft : Nat → Option DraftResult) (s : MemStorage)
    (r : SyncResult) (s' : MemStorage) (log : List String)
    (h : syncEmails userId now conn fetch llm draft s = (r, s', log))
    (hnd : (s.emails.map Email.messageId).Nodup) :
    ((s'.emails.map Email.messageId).Nodup)
    ∧ log.Nodup
    ∧ ∀ m ∈ log, getEmailByMessageId s m = none := by
  unfold syncEmails at h
  cases hset : getEmailSettings s userId with
  | none =>
    simp only [hset, Prod.mk.injEq] at h
    obtain ⟨h1, h2, h3⟩ := h
    subst h1; subst h2; subst h3
    exact ⟨hnd, List.nodup_nil, fun m hm => absurd hm (List.not_mem_nil m)⟩
  | some st =>
    simp only [hset] at h
    by_cases hact : st.active = false
    · rw [if_pos hact] at h
      simp only [Prod.mk.injEq] at h
      obtain ⟨h1, h2, h3⟩ := h
      subst h1; subst h2; subst h3
      exact ⟨hnd, List.nodup_nil, fun m hm => absurd hm (List.not_mem_nil m)⟩
    · rw [if_neg hact] at h
      cases conn with
      | error e =>
        simp only [Prod.mk.injEq] at h
        obtain ⟨h1, h2, h3⟩ := h
        subst h1; subst h2; subst h3
        exact ⟨hnd, List.nodup_nil, fun m hm => absurd hm (List.not_mem_nil m)⟩
      | ok u =>
        cases hf : fetch (syncWatermark st now) with
        | error e2 =>
          simp only [hf, Prod.mk.injEq] at h
          obtain ⟨h1, h2, h3⟩ := h
          subst h1; subst h2; subst h3
          exact ⟨hnd, List.nodup_nil, fun m hm => absurd hm (List.not_mem_nil m)⟩
        | ok fetched =>
          simp only [hf, Prod.mk.injEq] at h
          obtain ⟨h1, h2, h3⟩ := h
          subst h1; subst h2; subst h3
          obtain ⟨g1, g2, g3⟩ :=
            processFetched_msgIds_nodup llm draft userId now fetched s hnd
          refine ⟨?_, g2, ?_⟩
          · rw [updateEmailSettings_emails]
            exact g1
          · intro m hm
            rw [getEmailByMessageId_none]
            exact g3 m hm

/-- Witness for the amended C2: the same message delivered twice in one pass
leaves the messageIds duplicate-free and triggers exactly one classification
call. -/
theorem c2_amended_witness :
    (((syncEmails 1 1000 (Except.ok ()) (fun _ => Except.ok [demoMsg, demoMsg])
        (fun _ _ => Except.error "llm down") (fun _ => none) demoStore).2.1.emails.map
        Email.messageId).Nodup)
    ∧ ((syncEmails 1 1000 (Except.ok ()) (fun _ => Except.ok [demoMsg, demoMsg])
        (fun _ _ => Except.error "llm down") (fun _ => none) demoStore).2.2).Nodup :=
  ⟨(c2_amended_messageId_dedup 1 1000 (Except.ok ())
      (fun _ => Except.ok [demoMsg, demoMsg]) (fun _ _ => Except.error "llm down")
      (fun _ => none) demoStore _ _ _ rfl (by simp [demoStore])).1,
   (c2_amended_messageId_dedup 1 1000 (Except.ok ())
      (fun _ => Except.ok [demoMsg, demoMsg]) (fun _ _ => Except.error "llm down")
      (fun _ => none) demoStore _ _ _ rfl (by simp [demoStore])).2.1⟩

/-- C6: the automatic pipeline never creates an `EmailResponse` for an
email stored with `needsResponse = false`: every response row present after a
sync pass either predates the pass or references an email row that the pass
left in the store with `needsResponse = true` (draft generation is invoked
only under the `savedEmail.needsResponse` guard).  An `EmailResponse` for a
`needsResponse = false` email can therefore only arise from the explicit
user-triggered generate-response endpoint, which calls
`generateEmailResponse` directly without that guard. -/
theorem c6_no_spontaneous_response (userId now : Nat) (conn : Except String Unit)
    (fetch : Nat → Except String (List EmailData))
    (llm : String → String → Except String ClassifyResult)
    (draft : Nat → Option DraftResult) (s : MemStorage)
    (r : SyncResult) (s' : MemStorage) (log : List String)
    (h : syncEmails userId now conn fetch llm draft s = (r, s', log))
    (hid : ∀ x ∈ s.emails, x.id < s.emailId) :
    ∀ resp ∈ s'.emailResponses,
      resp ∈ s.emailResponses
      ∨ (resp.emailId, true) ∈ s'.emails.map (fun x => (x.id, x.needsResponse)) := by
  unfold syncEmails at h
  cases hset : getEmailSettings s userId with
  | none =>
    simp only [hset, Prod.mk.injEq] at h
    obtain ⟨h1, h2, h3⟩ := h
    subst h1; subst h2; subst h3
    intro resp hresp
    exact Or.inl hresp
  | some st =>
    simp only [hset] at h
    by_cases hact : st.active = false
    · rw [if_pos hact] at h
      simp only [Prod.mk.injEq] at h
      obtain ⟨h1, h2, h3⟩ := h
      subst h1; subst h2; subst h3
      intro resp hresp
      exact Or.inl hresp
    · rw [if_neg hact] at h
      cases conn with
      | error e =>
        simp only [Prod.mk.injEq] at h
        obtain ⟨h1, h2, h3⟩ := h
        subst h1; subst h2; subst h3
        intro resp hresp
        exact Or.inl hresp
      | ok u =>
        cases hf : fetch (syncWatermark st now) with
        | error e2 =>
          simp only [hf, Prod.mk.injEq] at h
          obtain ⟨h1, h2, h3⟩ := h
          subst h1; subst h2; subst h3
          intro resp hresp
          exact Or.inl hresp
        | ok fetched =>
          simp only [hf, Prod.mk.injEq] at h
          obtain ⟨h1, h2, h3⟩ := h
          subst h1; subst h2; subst h3
          intro resp hresp
          rw [updateEmailSettings_responses] at hresp
          rw [updateEmailSettings_emails]
          exact processFetched_responses_source llm draft userId now fetched s hid
            resp hresp

/-- Witness for C6: a pass that stores one needs-response email and drafts a
reply; the created response row points at an email row that is in the store
with `needsResponse = true`. -/
theorem c6_witness :
    (((1 : Nat), true) ∈ (syncEmails 1 1000 (Except.ok ())
        (fun _ => Except.ok [demoMsg]) (fun _ _ => Except.ok ⟨true, mkRat 9 10⟩)
        (fun _ => some ⟨"draft text", []⟩) demoStore).2.1.emails.map
        (fun x => (x.id, x.needsResponse))) :=
  Or.resolve_left
    (c6_no_spontaneous_response 1 1000 (Except.ok ()) (fun _ => Except.ok [demoMsg])
      (fun _ _ => Except.ok ⟨true, mkRat 9 10⟩) (fun _ => some ⟨"draft text", []⟩) demoStore
      _ _ _ rfl (by simp [demoStore])
      { id := 1, emailId := 1, userId := 1, draftResponse := "draft text",
        suggestedActions := [], status := "draft", sentAt := none, createdAt := 1000,
        updatedAt := 1000 }
      (by decide))
    (by decide)
end DoMyJob
